import Mathlib

/-!
# Texel decoding benchmark (`Main.cpp`): embedding and verified properties

The development follows the reference (non-SSE) build of `Main.cpp`, the one selected by
`#define SSEOPT 0`.

Conventions of the embedding.

* Unsigned machine integers (`uint8_t`, `uint16_t`, `uint32_t`, `uint64_t`) are natural
  numbers reduced modulo `2^8`, `2^16`, `2^32`, `2^64` at the places where the C++ code
  converts or wraps.
* An `int` of `DecodeOnCPU` is a natural number checked against `INT_MAX`: the function
  computes non-negative values only, and a value above `INT_MAX` (signed overflow, which has
  no defined behaviour in C++) makes the operation return `none`.  The `int` index
  expressions of the generator are natural numbers; they stay below the buffer size
  `m_w * m_h * 2`.  Image dimensions are the non-negative values of `m_w`, `m_h`.
* A GLSL `int` is an integer wrapped to the two's complement range of its precision, which
  is a parameter: 32 bits for `highp`, at least 16 bits for the default `mediump` of a
  fragment shader.
* Memory buffers are lists; an access outside a buffer makes the operation return `none`.
* The host is little-endian (the file includes `x86intrin.h`): a `uint16_t` load takes the
  byte at the lower address as the low byte.
* The monotonic clock and the GPU timer query are inputs: every call of
  `CPUTimer::GetTime` or `GPUTimer::GetTime` consumes one supplied reading.
-/

namespace TexDecode

/-! ## Bit-expansion utilities (`Main.cpp` lines 128-150) -/

/-- The function `Convert3To8`: `(v << 5) | (v << 2) | (v >> 1)` on a `uint8_t` argument, returned as
`uint8_t`. -/
def Convert3To8 (v : Nat) : Nat :=
  (((v % 256) <<< 5) ||| ((v % 256) <<< 2) ||| ((v % 256) >>> 1)) % 256

/-- The function `Convert4To8`: `(v << 4) | v`. -/
def Convert4To8 (v : Nat) : Nat :=
  (((v % 256) <<< 4) ||| (v % 256)) % 256

/-- The function `Convert5To8`: `(v << 3) | (v >> 2)`. -/
def Convert5To8 (v : Nat) : Nat :=
  (((v % 256) <<< 3) ||| ((v % 256) >>> 2)) % 256

/-- The function `Convert6To8`: `(v << 2) | (v >> 4)`. -/
def Convert6To8 (v : Nat) : Nat :=
  (((v % 256) <<< 2) ||| ((v % 256) >>> 4)) % 256

/-- The family `ConvertNTo8`, indexed by the input width `N`. -/
def ConvertNTo8 : Nat → Nat → Nat
  | 3, v => Convert3To8 v
  | 4, v => Convert4To8 v
  | 5, v => Convert5To8 v
  | 6, v => Convert6To8 v
  | _, _ => 0

/-- Bit replication of an `N`-bit value `v` into the 8-bit value `c`: reading `c` from its
most significant bit downwards gives the bits of `v` from its most significant bit
downwards, starting over at the top of `v` each time `v` is exhausted. -/
def IsBitReplication (N v c : Nat) : Prop :=
  c < 256 ∧ ∀ p, p < 8 → c.testBit (7 - p) = v.testBit (N - 1 - p % N)

instance (N v c : Nat) : Decidable (IsBitReplication N v c) := by
  unfold IsBitReplication
  infer_instance

/-! ## Pixel decoding (`Main.cpp` lines 151-164) -/

/-- The red field of a packed RGB565 value: `(val >> 11) & 0x1f`. -/
def redField (val : Nat) : Nat := ((val % 65536) >>> 11) &&& 0x1f

/-- The green field of a packed RGB565 value: `(val >> 5) & 0x3f`. -/
def greenField (val : Nat) : Nat := ((val % 65536) >>> 5) &&& 0x3f

/-- The blue field of a packed RGB565 value: `val & 0x1f`. -/
def blueField (val : Nat) : Nat := (val % 65536) &&& 0x1f

/-- The function `DecodePixel_RGB565`: expand the three fields and pack them with alpha `0xFF` as
`r | (g << 8) | (b << 16) | (a << 24)`, returned as `uint32_t`. -/
def DecodePixel_RGB565 (val : Nat) : Nat :=
  let r := Convert5To8 (redField val)
  let g := Convert6To8 (greenField val)
  let b := Convert5To8 (blueField val)
  let a := 0xFF
  (r ||| (g <<< 8) ||| (b <<< 16) ||| (a <<< 24)) % 2 ^ 32

/-- The function `swap16`, that is `bswap_16`: exchange the two bytes of a `uint16_t`. -/
def swap16 (data : Nat) : Nat :=
  (((data % 65536) &&& 0xFF) <<< 8) ||| (((data % 65536) >>> 8) &&& 0xFF)

/-- The alpha channel of a packed pixel: bits 24..31 of the 32-bit value. -/
def alphaChannel (pixel : Nat) : Nat := (pixel >>> 24) % 256

/-! ## Shader coordinate mapping (`LoadTexel`, `Main.cpp` line 243) -/

/-- The value of a GLSL `int` of `bits` bits that holds the mathematical result `v`: the
representative of `v` modulo `2 ^ bits` in the two's complement range. -/
def wrapInt (bits : Nat) (v : Int) : Int :=
  (v + 2 ^ (bits - 1)) % 2 ^ bits - 2 ^ (bits - 1)

/-- The texel-buffer index of `LoadTexel`:
`srcloc = ((dim.x * loc.y) >> 2) + (loc.x >> 2)`, in `int` arithmetic of `bits` bits; the
shifts are arithmetic. -/
def LoadTexel_srcloc (bits : Nat) (dimx locx locy : Int) : Int :=
  wrapInt bits ((wrapInt bits (dimx * locy) >>> (2 : Nat)) + (locx >>> (2 : Nat)))

/-! ## Loops and memory -/

/-- The C loop `for (int i = lo; i < hi; i += step) body`, started as
`forLoop hi step body fuel lo s`.  The body maps the state before an iteration to the state
after it, or fails.  `fuel` bounds the number of condition tests; running out of fuel gives
`none`. -/
def forLoop {σ : Type} (hi step : Nat) (body : Nat → σ → Option σ) : Nat → Nat → σ → Option σ
  | 0, _, _ => none
  | fuel + 1, i, s =>
    if i < hi then (body i s).bind (fun s' => forLoop hi step body fuel (i + step) s')
    else some s

/-- A `uint16_t` load from a byte buffer at byte offset `off` on the little-endian host.
A stored list element stands for the byte equal to its residue modulo 256. -/
def load16 (mem : List Nat) (off : Nat) : Option Nat :=
  match mem[off]?, mem[off + 1]? with
  | some lo, some hi => some (lo % 256 + 256 * (hi % 256))
  | _, _ => none

/-- A `uint32_t` store at element index `idx` of a pixel buffer. -/
def store32 (mem : List Nat) (idx v : Nat) : Option (List Nat) :=
  if idx < mem.length then some (mem.set idx v) else none

/-- The largest value of an `int`. -/
def INT_MAX : Nat := 2 ^ 31 - 1

/-- A non-negative `int` result: the value when it is representable, `none` when it
exceeds `INT_MAX`. -/
def checkedInt (v : Nat) : Option Nat :=
  if v ≤ INT_MAX then some v else none

/-- The loop `forLoop` with an `int` counter: the increment `i += step` that follows the
body must be representable. -/
def forLoopInt {σ : Type} (hi step : Nat) (body : Nat → σ → Option σ) (fuel i : Nat) (s : σ) :
    Option σ :=
  forLoop hi step
    (fun i s => (body i s).bind fun s' => (checkedInt (i + step)).map fun _ => s') fuel i s

/-! ## CPU reference decoder (`Main.cpp` lines 166-186) -/

/-- The pixel format tag `TexType`. -/
inductive TexType where
  | TYPE_RGB565
  deriving DecidableEq, Repr

/-- The state of a run of `DecodeOnCPU`: the destination buffer, the offset in bytes of the
advancing pointer `src` from the start of the source buffer, and a record of the accesses
made so far, oldest first, each a pair of the byte offset of the 16-bit load and the
destination index of the store.  The record is not program state. -/
structure DecodeState where
  dst : List Nat
  src : Nat
  log : List (Nat × Nat)
  deriving DecidableEq, Repr

/-- The statement `*ptr++ = DecodePixel_RGB565(swap16(*s++))` with `ptr` at destination
index `ptr` and `s` at source byte offset `s`. -/
def decodeTexel (srcbuf : List Nat) (ptr s : Nat) (st : DecodeState) : Option DecodeState :=
  (load16 srcbuf s).bind fun t =>
    (store32 st.dst ptr (DecodePixel_RGB565 (swap16 t))).map fun d =>
      { st with dst := d, log := st.log ++ [(s, ptr)] }

/-- The function `DecodeOnCPU`, reference implementation.  `Wsteps4` and `Wsteps8` are
computed first, from `width + 3` and `width + 7`.  In the innermost loop `ptr` starts at
`dst + (y + iy) * width + x` and `s` at `src`, and both advance by one element per
iteration, so iteration `j` stores `j` elements after `ptr` and loads at byte offset
`src + 2 * j`.  The sub-expressions `y + iy` and `(y + iy) * width` are no greater than
the `int` value `(y + iy) * width + x` that is checked.  The increment clause of the `iy`
loop advances `src` by 8. -/
def DecodeOnCPU (dst src : List Nat) (width height : Nat) (type : TexType) :
    Option DecodeState :=
  (checkedInt (width + 3)).bind fun _ =>
  (checkedInt (width + 7)).bind fun _ =>
  match type with
  | TexType.TYPE_RGB565 =>
    forLoopInt height 4 (fun y =>
      forLoopInt width 4 (fun x =>
        forLoopInt 4 1 (fun iy st =>
          (checkedInt ((y + iy) * width + x)).bind fun off =>
            (forLoopInt 4 1 (fun j st2 =>
                decodeTexel src (off + j) (st2.src + 2 * j) st2) 5 0 st).map
              fun st3 => { st3 with src := st3.src + 8 }) 5 0) (width + 1) 0) (height + 1) 0
      { dst := dst, src := 0, log := [] }

/-- The destination index that receives the `k`-th 16-bit source word when the source is
consumed as consecutive 4x4 blocks, blocks in row-major block order, four rows of four
texels inside a block. -/
def tiledDstIndex (width k : Nat) : Nat :=
  (4 * (k / 16 / (width / 4)) + k % 16 / 4) * width + 4 * (k / 16 % (width / 4)) + k % 4

/-- The index of the 16-bit source word that is decoded into pixel `(x, y)`: block
`(y / 4, x / 4)`, row `y % 4` and column `x % 4` inside the block. -/
def tiledSrcIndex (width x y : Nat) : Nat :=
  ((y / 4 * (width / 4) + x / 4) * 4 + y % 4) * 4 + x % 4

/-- An 8x4 source image, 64 bytes, all zero except the low-address byte of the texel at
row-major index 4. -/
def rowMajorProbeSrc : List Nat :=
  (List.replicate 8 0 ++ [0xFF]) ++ List.replicate 55 0

/-- Progress of `DecodeOnCPU` after `n` texels, relative to the source buffer `src` and the
initial destination `dst0`: the destination keeps its length, the access record is that of
source words `0 .. n-1` in order, each with its tiled destination index, each of those
destination entries holds the decoded word, and every other entry is unchanged. -/
def Decoded (src dst0 : List Nat) (w n : Nat) (st : DecodeState) : Prop :=
  st.dst.length = dst0.length ∧
  st.log = (List.range n).map (fun k => (2 * k, tiledDstIndex w k)) ∧
  (∀ k, k < n → ∃ t, load16 src (2 * k) = some t ∧
      st.dst[tiledDstIndex w k]? = some (DecodePixel_RGB565 (swap16 t))) ∧
  (∀ i, (∀ k, k < n → tiledDstIndex w k ≠ i) → st.dst[i]? = dst0[i]?)

/-! ## Host timer (`CPUTimer`, `Main.cpp` lines 342-368) -/

/-- The members of `CPUTimer`.  The member `end` is named `end_` here. -/
structure CPUTimer where
  start : Nat
  end_ : Nat
  deriving DecidableEq, Repr

/-- The method `CPUTimer::Start`: `start = GetTime()`, with `now` the clock reading obtained. -/
def CPUTimer.Start (t : CPUTimer) (now : Nat) : CPUTimer :=
  { t with start := now % 2 ^ 64 }

/-- The method `CPUTimer::End`: `end = GetTime(); return end - start;` in `uint64_t` arithmetic, with
`now` the clock reading obtained.  Gives the timer afterwards and the returned value. -/
def CPUTimer.End (t : CPUTimer) (now : Nat) : CPUTimer × Nat :=
  ({ t with end_ := now % 2 ^ 64 }, (now % 2 ^ 64 + 2 ^ 64 - t.start % 2 ^ 64) % 2 ^ 64)

/-! ## Synthetic pattern generator (`GenRGB565`, `Main.cpp` lines 416-441) -/

/-- The members of `TextureConvert` that `GenRGB565` reads or writes: the dimensions, the
packed source buffer, the stripe width and the regeneration timer. -/
structure PatternState where
  m_w : Nat
  m_h : Nat
  data : List Nat
  m_shift_val : Nat
  m_cputime : CPUTimer
  deriving DecidableEq, Repr

/-- A `uint16_t` store into a byte buffer at byte offset `off` on the little-endian host. -/
def store16 (mem : List Nat) (off v : Nat) : Option (List Nat) :=
  if off + 1 < mem.length then
    some ((mem.set off (v % 256)).set (off + 1) (v / 256 % 256))
  else none

/-- Lines 423-425: `m_shift_val <<= 1; if (m_shift_val > m_w) m_shift_val = 1;` with
`m_shift_val` a `uint32_t` and `m_w` converted to unsigned for the comparison. -/
def advanceShift (m_w m_shift_val : Nat) : Nat :=
  let shifted := (m_shift_val <<< 1) % 2 ^ 32
  if shifted > m_w % 2 ^ 32 then 1 else shifted

/-- Lines 427-436: the fill loops.  Texel `(x, y)` receives `0xE0FF` when
`x & m_shift_val` is non-zero and `0xFF07` otherwise. -/
def fillStripes (m_w m_h m_shift_val : Nat) (data : List Nat) : Option (List Nat) :=
  forLoop m_h 1 (fun y =>
    forLoop m_w 1 (fun x d =>
      let i := (y * m_w + x) * 2
      if x &&& m_shift_val ≠ 0 then store16 d i 0xE0FF else store16 d i 0xFF07)
      (m_w + 1) 0) (m_h + 1) 0 data

/-- The method `GenRGB565`.  Here `now` is the clock reading taken by `m_cputime.End()` and `restart` the
one taken by `m_cputime.Start()`, which is consumed only when the pattern is regenerated.
The upload of the buffer to the GPU is outside the state. -/
def GenRGB565 (tc : PatternState) (now restart : Nat) : Option PatternState :=
  let ended := tc.m_cputime.End now
  let time := ended.2 / 1000
  if time ≥ 2000 then
    let shift := advanceShift tc.m_w tc.m_shift_val
    (fillStripes tc.m_w tc.m_h shift tc.data).map fun d =>
      { tc with m_cputime := ended.1.Start restart, m_shift_val := shift, data := d }
  else
    some { tc with m_cputime := ended.1 }

/-- The stripe width after `n` regenerations, starting from the initial value 1 of
`m_shift_val`. -/
def stripeWidthAfter (m_w : Nat) : Nat → Nat
  | 0 => 1
  | n + 1 => advanceShift m_w (stripeWidthAfter m_w n)

/-! ## Timing aggregation (`DecodeImage`, `Main.cpp` lines 458-479) -/

/-- The members of `TextureConvert` used by the timing statements of `DecodeImage`: the
report-interval timer and the three accumulators. -/
structure TimingState where
  m_avgtime : CPUTimer
  totaltime_gpu : Nat
  totaltime_cpu : Nat
  num_times : Nat
  deriving DecidableEq, Repr

/-- The values measured during one cycle of `DecodeImage`: the clock readings `time1` and
`time2` around `DecodeOnCPU`, the GPU query result `time` in nanoseconds, the reading
`avgNow` taken by `m_avgtime.End()` and the reading `avgRestart` taken by
`m_avgtime.Start()`, which is consumed only when a report is printed. -/
structure Cycle where
  time1 : Nat
  time2 : Nat
  time : Nat
  avgNow : Nat
  avgRestart : Nat
  deriving DecidableEq, Repr

/-- The arguments of the report `printf`, in order. -/
structure Report where
  gpu_us : Nat
  gpu_ms : Nat
  cpu_us : Nat
  cpu_ms : Nat
  runs : Nat
  interval_ms : Nat
  deriving DecidableEq, Repr

/-- The GPU duration of a cycle as added to `totaltime_gpu`. -/
def Cycle.gpuDuration (c : Cycle) : Nat := c.time % 2 ^ 64

/-- The CPU duration of a cycle as added to `totaltime_cpu`: `time2 - time1`, converted to
`uint64_t`. -/
def Cycle.cpuDuration (c : Cycle) : Nat :=
  (c.time2 % 2 ^ 64 + 2 ^ 64 - c.time1 % 2 ^ 64) % 2 ^ 64

/-- The timing statements of `DecodeImage` (lines 462-479), acting on the interval timer
and the accumulators.  The statements before them (`GenRGB565`, the GL commands,
`DecodeOnCPU`) act on other members and contribute the measured values of the cycle.
The result is `none` when the report divides by a zero `num_times`; otherwise it is the
state afterwards and the report, if one was printed. -/
def DecodeImage (tc : TimingState) (c : Cycle) : Option (TimingState × Option Report) :=
  let num_times := (tc.num_times + 1) % 2 ^ 64
  let totaltime_gpu := (tc.totaltime_gpu + c.gpuDuration) % 2 ^ 64
  let totaltime_cpu := (tc.totaltime_cpu + c.cpuDuration) % 2 ^ 64
  let ended := tc.m_avgtime.End c.avgNow
  let total_avg := ended.2
  if total_avg ≥ 1000 * 1000 then
    if num_times = 0 then none
    else
      some ({ m_avgtime := ended.1.Start c.avgRestart,
              totaltime_gpu := 0, totaltime_cpu := 0, num_times := 0 },
            some { gpu_us := totaltime_gpu / num_times / 1000,
                   gpu_ms := totaltime_gpu / num_times / 1000 / 1000,
                   cpu_us := totaltime_cpu / num_times,
                   cpu_ms := totaltime_cpu / num_times / 1000,
                   runs := num_times,
                   interval_ms := total_avg / 1000 })
  else
    some ({ m_avgtime := ended.1, totaltime_gpu := totaltime_gpu,
            totaltime_cpu := totaltime_cpu, num_times := num_times }, none)

/-- Consecutive cycles of `DecodeImage`, as issued by the constructor's caller and the
frame loop: the state after the last cycle and the reports printed, one entry per cycle. -/
def runCycles : TimingState → List Cycle → Option (TimingState × List (Option Report))
  | tc, [] => some (tc, [])
  | tc, c :: cs =>
    (DecodeImage tc c).bind fun r =>
      (runCycles r.1 cs).map fun rest => (rest.1, r.2 :: rest.2)

/-- The interval value `m_avgtime.End()` returns for a cycle when the baseline of the
interval timer is `start`. -/
def Cycle.interval (start : Nat) (c : Cycle) : Nat :=
  (c.avgNow % 2 ^ 64 + 2 ^ 64 - start % 2 ^ 64) % 2 ^ 64

/-- A 4x4 generator state whose regeneration timer has baseline 0: an all-zero packed
buffer of 32 bytes and the initial stripe width 1. -/
def genProbe : PatternState :=
  { m_w := 4, m_h := 4, data := List.replicate 32 0, m_shift_val := 1,
    m_cputime := { start := 0, end_ := 0 } }

/-- The state `GenRGB565` produces from `genProbe` when called at clock reading 2000000,
with the timer restarted at reading 2000005. -/
def genProbeAfter : PatternState :=
  { m_w := 4, m_h := 4,
    data := [7, 255, 7, 255, 255, 224, 255, 224, 7, 255, 7, 255, 255, 224, 255, 224,
             7, 255, 7, 255, 255, 224, 255, 224, 7, 255, 7, 255, 255, 224, 255, 224],
    m_shift_val := 2,
    m_cputime := { start := 2000005, end_ := 2000000 } }

/-- Reachability of timing states from the state the constructor leaves, by cycles of
`DecodeImage` that complete.  The index counts the cycles since the accumulators were last
reset; an interval is allowed fewer than `2 ^ 64` cycles. -/
inductive Reachable : Nat → TimingState → Prop where
  | init (t : CPUTimer) :
      Reachable 0 { m_avgtime := t, totaltime_gpu := 0, totaltime_cpu := 0, num_times := 0 }
  | quiet {n : Nat} {tc tc' : TimingState} (c : Cycle) :
      Reachable n tc → n + 1 < 2 ^ 64 → DecodeImage tc c = some (tc', none) →
      Reachable (n + 1) tc'
  | report {n : Nat} {tc tc' : TimingState} (c : Cycle) (r : Report) :
      Reachable n tc → n + 1 < 2 ^ 64 → DecodeImage tc c = some (tc', some r) →
      Reachable 0 tc'

/-- The number `printf` shows for a `uint64_t` argument under the conversion `%ld`: the
argument read as a signed 64-bit value. -/
def printedLd (v : Nat) : Int :=
  if v % 2 ^ 64 < 2 ^ 63 then ((v % 2 ^ 64 : Nat) : Int) else ((v % 2 ^ 64 : Nat) : Int) - 2 ^ 64

/-- Two cycles inside the report interval that starts at clock reading 0: CPU durations
15 and 17 us, GPU durations 3000 and 5000 ns. -/
def sampleQuietCycles : List Cycle :=
  [{ time1 := 100, time2 := 115, time := 3000, avgNow := 400, avgRestart := 0 },
   { time1 := 500, time2 := 517, time := 5000, avgNow := 800, avgRestart := 0 }]

/-- A cycle that reaches the report interval that starts at clock reading 0: CPU duration
23 us, GPU duration 7500 ns. -/
def sampleReportCycle : Cycle :=
  { time1 := 1000000, time2 := 1000023, time := 7500, avgNow := 1000050,
    avgRestart := 1000060 }

/-- A cycle with zero measured durations, taken at clock reading 1000000. -/
def lateCycle : Cycle :=
  { time1 := 0, time2 := 0, time := 0, avgNow := 1000000, avgRestart := 1000000 }

/-- The timing state the constructor leaves when the interval timer starts at reading 0. -/
def timingInit : TimingState :=
  { m_avgtime := { start := 0, end_ := 0 }, totaltime_gpu := 0, totaltime_cpu := 0,
    num_times := 0 }

/-! ## Theorems -/

/-! ### Claims about the pure functions -/

/-- C3: for N in 3..6 and every N-bit input, ConvertNTo8 is the 8-bit bit replication of
the input, differs from exact linear rescaling by less than one unit
(`|c * (2^N - 1) - 255 * v| < 2^N - 1`), sends 0 to 0 and `2^N - 1` to 255. -/
theorem convertNTo8_bit_replication (N v : Nat) (hN : N = 3 ∨ N = 4 ∨ N = 5 ∨ N = 6)
    (hv : v < 2 ^ N) :
    IsBitReplication N v (ConvertNTo8 N v) ∧
      Int.natAbs ((ConvertNTo8 N v : Int) * ((2 : Int) ^ N - 1) - 255 * (v : Int)) < 2 ^ N - 1 ∧
      ConvertNTo8 N 0 = 0 ∧ ConvertNTo8 N (2 ^ N - 1) = 255 := by
  rcases hN with rfl | rfl | rfl | rfl <;> norm_num at hv <;> interval_cases v <;> decide

/-- Witness of C3 at the 5-bit input 19. -/
theorem convertNTo8_bit_replication_witness :
    (19 < 2 ^ 5) ∧
    IsBitReplication 5 19 (ConvertNTo8 5 19) ∧
      Int.natAbs ((ConvertNTo8 5 19 : Int) * ((2 : Int) ^ 5 - 1) - 255 * ((19 : Nat) : Int))
        < 2 ^ 5 - 1 ∧
      ConvertNTo8 5 0 = 0 ∧ ConvertNTo8 5 (2 ^ 5 - 1) = 255 :=
  ⟨by decide, convertNTo8_bit_replication 5 19 (by decide) (by decide)⟩

/-- C4 as stated fails: the green field of the packed value 0xFF07 is not 31. -/
theorem golden_vector_green_field_not_31 :
    ¬ (swap16 0x07FF = 0xFF07 ∧ redField 0xFF07 = 31 ∧ Convert5To8 31 = 255 ∧
        greenField 0xFF07 = 31 ∧ blueField 0xFF07 = 0xFF07 % 32 ∧
        DecodePixel_RGB565 0xFF07 =
          Convert5To8 (redField 0xFF07) ||| (Convert6To8 (greenField 0xFF07) <<< 8) |||
            (Convert5To8 (blueField 0xFF07) <<< 16) ||| (0xFF <<< 24)) := by
  decide

/-- C4, amended: the texel stored as 0x07FF is 0xFF07 after the byte swap; its red field is
31, expanded to 255; its green field is 56, expanded to 227; its blue field is the low five
bits, 7, expanded to 57; the decoded pixel is r | (g << 8) | (b << 16) | (0xFF << 24),
which is 0xFF39E3FF. -/
theorem golden_vector_0xFF07 :
    swap16 0x07FF = 0xFF07 ∧ redField 0xFF07 = 31 ∧ Convert5To8 31 = 255 ∧
      greenField 0xFF07 = 56 ∧ Convert6To8 56 = 227 ∧
      blueField 0xFF07 = 0xFF07 % 32 ∧ blueField 0xFF07 = 7 ∧ Convert5To8 7 = 57 ∧
      DecodePixel_RGB565 0xFF07 =
        Convert5To8 (redField 0xFF07) ||| (Convert6To8 (greenField 0xFF07) <<< 8) |||
          (Convert5To8 (blueField 0xFF07) <<< 16) ||| (0xFF <<< 24) ∧
      DecodePixel_RGB565 (swap16 0x07FF) = 0xFF39E3FF := by
  decide

theorem wrapInt_of_lt (bits n : Nat) (hbits : 0 < bits) (h : n < 2 ^ (bits - 1)) :
    wrapInt bits (n : Int) = (n : Int) := by
  unfold wrapInt
  have hP : (2 : Int) ^ bits = 2 * 2 ^ (bits - 1) := by
    have e : bits = (bits - 1) + 1 := by omega
    conv_lhs => rw [e, pow_succ]
    ring
  have hn : (n : Int) < 2 ^ (bits - 1) := by exact_mod_cast h
  have hpos : (0 : Int) < 2 ^ (bits - 1) := by positivity
  rw [Int.emod_eq_of_lt (by omega) (by rw [hP]; omega)]
  omega

theorem srcloc_eq (bits W x y : Nat) (hbits : 0 < bits)
    (h : 4 * W * y + x < 2 ^ (bits - 1)) :
    LoadTexel_srcloc bits ((4 * W : Nat) : Int) (x : Int) (y : Int) = ((W * y + x / 4 : Nat) : Int) := by
  unfold LoadTexel_srcloc
  have e0 : 4 * W * y = 4 * (W * y) := by ring
  have e1 : (((4 * W : Nat) : Int) * (y : Int)) = ((4 * (W * y) : Nat) : Int) := by
    push_cast; ring
  rw [e1, wrapInt_of_lt bits _ hbits (by omega)]
  have e2 : ((4 * (W * y) : Nat) : Int) >>> (2 : Nat) = ((W * y : Nat) : Int) := by
    rw [Int.shiftRight_eq_div_pow]; omega
  have e3 : (x : Int) >>> (2 : Nat) = ((x / 4 : Nat) : Int) := by
    rw [Int.shiftRight_eq_div_pow]; omega
  rw [e2, e3]
  have e4 : ((W * y : Nat) : Int) + ((x / 4 : Nat) : Int) = ((W * y + x / 4 : Nat) : Int) := by
    push_cast; rfl
  rw [e4]
  exact wrapInt_of_lt bits _ hbits (by omega)

theorem block_index_unique (W a b y y' : Nat) (ha : a < W) (hb : b < W)
    (h : W * y + a = W * y' + b) : y = y' ∧ a = b := by
  have h1 : (W * y + a) / W = y := by
    rw [Nat.add_comm, Nat.add_mul_div_left _ _ (by omega : 0 < W), Nat.div_eq_of_lt ha]; simp
  have h2 : (W * y' + b) / W = y' := by
    rw [Nat.add_comm, Nat.add_mul_div_left _ _ (by omega : 0 < W), Nat.div_eq_of_lt hb]; simp
  have hy : y = y' := by rw [← h1, ← h2, h]
  subst hy
  exact ⟨rfl, by omega⟩

/-- C9: for a width that is a multiple of 4, a column inside the row and w*y + x within
the positive range of the shader's int (below 2^(bits-1) for an int of `bits` bits), the
index computed by LoadTexel is the floor of (w*y + x)/4, its group of four 16-bit words
contains the row-major texel y*w + x, the four columns 4k..4k+3 of a row share one index,
and two pixels in that range share an index exactly when they lie in the same row and the
same 4-column run. -/
theorem loadTexel_srcloc_row_major (bits w x y : Nat) (hbits : 0 < bits) (hw : 4 ∣ w)
    (hx : x < w) (hrange : w * y + x < 2 ^ (bits - 1)) :
    LoadTexel_srcloc bits (w : Int) (x : Int) (y : Int) = (((w * y + x) / 4 : Nat) : Int) ∧
      (4 * LoadTexel_srcloc bits (w : Int) (x : Int) (y : Int) ≤ ((y * w + x : Nat) : Int) ∧
        ((y * w + x : Nat) : Int) < 4 * LoadTexel_srcloc bits (w : Int) (x : Int) (y : Int) + 4) ∧
      (∀ k j : Nat, j < 4 → w * y + 4 * k + j < 2 ^ (bits - 1) →
        LoadTexel_srcloc bits (w : Int) ((4 * k + j : Nat) : Int) (y : Int)
          = LoadTexel_srcloc bits (w : Int) ((4 * k : Nat) : Int) (y : Int)) ∧
      (∀ x2 y2 : Nat, x2 < w → w * y2 + x2 < 2 ^ (bits - 1) →
        (LoadTexel_srcloc bits (w : Int) (x : Int) (y : Int)
            = LoadTexel_srcloc bits (w : Int) (x2 : Int) (y2 : Int)
          ↔ y = y2 ∧ x / 4 = x2 / 4)) := by
  obtain ⟨W, rfl⟩ := hw
  have e1 : 4 * W * y = 4 * (W * y) := by ring
  have e2 : y * (4 * W) = 4 * (W * y) := by ring
  rw [srcloc_eq bits W x y hbits hrange]
  refine ⟨?_, ?_, ?_, ?_⟩
  · rw [e1]
    have : W * y + x / 4 = (4 * (W * y) + x) / 4 := by omega
    rw [this]
  · rw [e2]; omega
  · intro k j hj hr
    rw [srcloc_eq bits W _ y hbits (by omega), srcloc_eq bits W _ y hbits (by omega)]
    have : W * y + (4 * k + j) / 4 = W * y + 4 * k / 4 := by omega
    rw [this]
  · intro x2 y2 hx2 hr2
    rw [srcloc_eq bits W x2 y2 hbits hr2]
    constructor
    · intro h
      have h' : W * y + x / 4 = W * y2 + x2 / 4 := by exact_mod_cast h
      exact block_index_unique W (x / 4) (x2 / 4) y y2 (by omega) (by omega) h'
    · rintro ⟨rfl, h⟩
      rw [h]

/-- Witness of C9 with a 16-bit int: width 256, pixel (5, 127), where w*y + x = 32517 is
in range while the next row would not be. -/
theorem loadTexel_srcloc_row_major_witness :
    (0 < 16 ∧ 4 ∣ 256 ∧ 5 < 256 ∧ 256 * 127 + 5 < 2 ^ (16 - 1)) ∧
    LoadTexel_srcloc 16 ((256 : Nat) : Int) ((5 : Nat) : Int) ((127 : Nat) : Int)
        = (((256 * 127 + 5) / 4 : Nat) : Int) ∧
      (4 * LoadTexel_srcloc 16 ((256 : Nat) : Int) ((5 : Nat) : Int) ((127 : Nat) : Int)
          ≤ ((127 * 256 + 5 : Nat) : Int) ∧
        ((127 * 256 + 5 : Nat) : Int)
          < 4 * LoadTexel_srcloc 16 ((256 : Nat) : Int) ((5 : Nat) : Int) ((127 : Nat) : Int) + 4) ∧
      (∀ k j : Nat, j < 4 → 256 * 127 + 4 * k + j < 2 ^ (16 - 1) →
        LoadTexel_srcloc 16 ((256 : Nat) : Int) ((4 * k + j : Nat) : Int) ((127 : Nat) : Int)
          = LoadTexel_srcloc 16 ((256 : Nat) : Int) ((4 * k : Nat) : Int) ((127 : Nat) : Int)) ∧
      (∀ x2 y2 : Nat, x2 < 256 → 256 * y2 + x2 < 2 ^ (16 - 1) →
        (LoadTexel_srcloc 16 ((256 : Nat) : Int) ((5 : Nat) : Int) ((127 : Nat) : Int)
            = LoadTexel_srcloc 16 ((256 : Nat) : Int) (x2 : Int) (y2 : Int)
          ↔ 127 = y2 ∧ 5 / 4 = x2 / 4)) :=
  ⟨by decide, loadTexel_srcloc_row_major 16 256 5 127 (by decide) (by decide) (by decide)
    (by decide)⟩

/-- Beyond the range the index wraps: with a 32-bit int, width 65536 and row 32768 give the
product 2^31, and the computed index is negative. -/
theorem loadTexel_srcloc_wraps :
    LoadTexel_srcloc 32 65536 0 32768 = -536870912 := by
  decide

/-! ### Loop rule -/

theorem forLoop_inv {σ : Type} (hi step : Nat) (hstep : 0 < step) (body : Nat → σ → Option σ)
    (Inv : Nat → σ → Prop)
    (hbody : ∀ i s, i < hi → Inv i s → ∃ s', body i s = some s' ∧ Inv (i + step) s') :
    ∀ fuel i s, 0 < fuel → hi < i + fuel → Inv i s →
      ∃ i' s', hi ≤ i' ∧ forLoop hi step body fuel i s = some s' ∧ Inv i' s' := by
  intro fuel
  induction fuel with
  | zero =>
    intro i s h0 hf hI
    omega
  | succ n ih =>
    intro i s h0 hf hI
    by_cases hlt : i < hi
    · obtain ⟨s1, hb, hI1⟩ := hbody i s hlt hI
      obtain ⟨i2, s2, h1, h2, h3⟩ := ih (i + step) s1 (by omega) (by omega) hI1
      refine ⟨i2, s2, h1, ?_, h3⟩
      simp [forLoop, hlt, hb, h2]
    · exact ⟨i, s, by omega, by simp [forLoop, hlt], hI⟩

theorem checkedInt_of_le (v : Nat) (h : v < 2 ^ 31) : checkedInt v = some v := by
  unfold checkedInt INT_MAX
  rw [if_pos (by omega)]

theorem forLoopInt_inv {σ : Type} (hi step : Nat) (hstep : 0 < step)
    (hmax : hi + step ≤ 2 ^ 31) (body : Nat → σ → Option σ) (Inv : Nat → σ → Prop)
    (hbody : ∀ i s, i < hi → Inv i s → ∃ s', body i s = some s' ∧ Inv (i + step) s') :
    ∀ fuel i s, 0 < fuel → hi < i + fuel → Inv i s →
      ∃ i' s', hi ≤ i' ∧ forLoopInt hi step body fuel i s = some s' ∧ Inv i' s' := by
  intro fuel i s h0 hf hI
  unfold forLoopInt
  refine forLoop_inv hi step hstep _ Inv ?_ fuel i s h0 hf hI
  intro i s hi' hI'
  obtain ⟨s', h1, h2⟩ := hbody i s hi' hI'
  refine ⟨s', ?_, h2⟩
  simp only [h1, Option.some_bind, checkedInt_of_le (i + step) (by omega), Option.map_some']

/-! ### Index arithmetic of the 4x4 tiling -/

theorem block_split (W b a : Nat) (ha : a < W) :
    (b * W + a) / W = b ∧ (b * W + a) % W = a := by
  have hW : 0 < W := by omega
  constructor
  · rw [Nat.add_comm, Nat.add_mul_div_right _ _ hW, Nat.div_eq_of_lt ha]; simp
  · rw [Nat.add_comm, Nat.add_mul_mod_self_right, Nat.mod_eq_of_lt ha]

theorem tiledDstIndex_block (W b a iy j : Nat) (ha : a < W) (hiy : iy < 4) (hj : j < 4) :
    tiledDstIndex (4 * W) (((b * W + a) * 4 + iy) * 4 + j) = (4 * b + iy) * (4 * W) + 4 * a + j := by
  obtain ⟨h1, h2⟩ := block_split W b a ha
  unfold tiledDstIndex
  have e1 : (((b * W + a) * 4 + iy) * 4 + j) / 16 = b * W + a := by omega
  have e2 : (((b * W + a) * 4 + iy) * 4 + j) % 16 / 4 = iy := by omega
  have e3 : (((b * W + a) * 4 + iy) * 4 + j) % 4 = j := by omega
  have e4 : 4 * W / 4 = W := by omega
  rw [e1, e2, e3, e4, h1, h2]

theorem tiledSrcIndex_tiledDstIndex (W k : Nat) (hW : 0 < W) :
    tiledSrcIndex (4 * W) (tiledDstIndex (4 * W) k % (4 * W)) (tiledDstIndex (4 * W) k / (4 * W))
      = k := by
  have hq : k / 16 / W * W + k / 16 % W = k / 16 := by
    rw [Nat.mul_comm]; exact Nat.div_add_mod _ _
  have ha : k / 16 % W < W := Nat.mod_lt _ hW
  have hk : k = ((k / 16 / W * W + k / 16 % W) * 4 + k % 16 / 4) * 4 + k % 4 := by omega
  have h := tiledDstIndex_block W (k / 16 / W) (k / 16 % W) (k % 16 / 4) (k % 4) ha
    (by omega) (by omega)
  rw [← hk] at h
  rw [h]
  have hcol : 4 * (k / 16 % W) + k % 4 < 4 * W := by omega
  have e1 : ((4 * (k / 16 / W) + k % 16 / 4) * (4 * W) + 4 * (k / 16 % W) + k % 4) / (4 * W)
      = 4 * (k / 16 / W) + k % 16 / 4 := by
    rw [Nat.add_assoc]
    exact (block_split (4 * W) _ _ hcol).1
  have e2 : ((4 * (k / 16 / W) + k % 16 / 4) * (4 * W) + 4 * (k / 16 % W) + k % 4) % (4 * W)
      = 4 * (k / 16 % W) + k % 4 := by
    rw [Nat.add_assoc]
    exact (block_split (4 * W) _ _ hcol).2
  rw [e1, e2]
  unfold tiledSrcIndex
  have e4 : 4 * W / 4 = W := by omega
  have e5 : (4 * (k / 16 / W) + k % 16 / 4) / 4 = k / 16 / W := by omega
  have e6 : (4 * (k / 16 % W) + k % 4) / 4 = k / 16 % W := by omega
  rw [e4, e5, e6]
  omega

theorem tiledDstIndex_injective (W k1 k2 : Nat) (hW : 0 < W)
    (h : tiledDstIndex (4 * W) k1 = tiledDstIndex (4 * W) k2) : k1 = k2 := by
  rw [← tiledSrcIndex_tiledDstIndex W k1 hW, ← tiledSrcIndex_tiledDstIndex W k2 hW, h]

theorem block_count_lt (W H b a : Nat) (hb : b < H) (ha : a < W) : b * W + a < H * W := by
  have h1 : (b + 1) * W ≤ H * W := Nat.mul_le_mul_right W (by omega)
  have h2 : (b + 1) * W = b * W + W := by ring
  omega

theorem tiledDstIndex_lt (W H k : Nat) (hW : 0 < W) (hk : k < 16 * (H * W)) :
    tiledDstIndex (4 * W) k < 16 * (H * W) := by
  have hq : k / 16 / W * W + k / 16 % W = k / 16 := by
    rw [Nat.mul_comm]; exact Nat.div_add_mod _ _
  have ha : k / 16 % W < W := Nat.mod_lt _ hW
  have hk2 : k = ((k / 16 / W * W + k / 16 % W) * 4 + k % 16 / 4) * 4 + k % 4 := by omega
  have h := tiledDstIndex_block W (k / 16 / W) (k / 16 % W) (k % 16 / 4) (k % 4) ha
    (by omega) (by omega)
  rw [← hk2] at h
  rw [h]
  have hb : k / 16 / W < H := by
    rw [Nat.div_lt_iff_lt_mul hW]; omega
  have h1 : (4 * (k / 16 / W) + k % 16 / 4 + 1) * (4 * W) ≤ (4 * H) * (4 * W) :=
    Nat.mul_le_mul_right _ (by omega)
  have h2 : (4 * (k / 16 / W) + k % 16 / 4 + 1) * (4 * W)
      = (4 * (k / 16 / W) + k % 16 / 4) * (4 * W) + 4 * W := by ring
  have h3 : (4 * H) * (4 * W) = 16 * (H * W) := by ring
  omega

theorem block_index_lt (W H b a iy j : Nat) (hb : b < H) (ha : a < W) (hiy : iy < 4)
    (hj : j < 4) : (4 * b + iy) * (4 * W) + 4 * a + j < 16 * (H * W) := by
  have hm := block_count_lt W H b a hb ha
  have h := tiledDstIndex_lt W H (((b * W + a) * 4 + iy) * 4 + j) (by omega) (by omega)
  rw [tiledDstIndex_block W b a iy j ha hiy hj] at h
  exact h

theorem dims_in_int_range (W H : Nat) (hW : 0 < W) (hH : 0 < H)
    (hint : 2 * (16 * (H * W)) < 2 ^ 31) : 4 * W + 7 < 2 ^ 31 ∧ 4 * H + 4 ≤ 2 ^ 31 := by
  have h1 : W ≤ H * W := Nat.le_mul_of_pos_left W hH
  have h2 : H ≤ H * W := Nat.le_mul_of_pos_right H hW
  omega

/-! ### The decoder loop nest -/

theorem load16_in_bounds (mem : List Nat) (off : Nat) (h : off + 1 < mem.length) :
    ∃ t, load16 mem off = some t := by
  unfold load16
  rw [List.getElem?_eq_getElem (by omega : off < mem.length), List.getElem?_eq_getElem h]
  exact ⟨_, rfl⟩

theorem decodeTexel_step (src dst0 : List Nat) (W H n : Nat) (st : DecodeState) (hW : 0 < W)
    (hsrc : 2 * (16 * (H * W)) ≤ src.length) (hdst : 16 * (H * W) ≤ dst0.length)
    (hn : n < 16 * (H * W)) (hD : Decoded src dst0 (4 * W) n st) :
    ∃ st', decodeTexel src (tiledDstIndex (4 * W) n) (2 * n) st = some st' ∧
      st'.src = st.src ∧ Decoded src dst0 (4 * W) (n + 1) st' := by
  obtain ⟨hlen, hlog, hval, hrest⟩ := hD
  obtain ⟨t, ht⟩ := load16_in_bounds src (2 * n) (by omega)
  have hidx : tiledDstIndex (4 * W) n < st.dst.length := by
    have := tiledDstIndex_lt W H n hW hn
    omega
  refine ⟨{ st with dst := st.dst.set (tiledDstIndex (4 * W) n) (DecodePixel_RGB565 (swap16 t)),
                    log := st.log ++ [(2 * n, tiledDstIndex (4 * W) n)] }, ?_, rfl, ?_, ?_, ?_, ?_⟩
  · simp [decodeTexel, ht, store32, hidx]
  · simp [hlen]
  · simp [hlog, List.range_succ]
  · intro k hk
    by_cases hkn : k = n
    · subst hkn
      exact ⟨t, ht, by simp [List.getElem?_set_self hidx]⟩
    · obtain ⟨t2, h1, h2⟩ := hval k (by omega)
      refine ⟨t2, h1, ?_⟩
      have hne : tiledDstIndex (4 * W) n ≠ tiledDstIndex (4 * W) k := fun h =>
        hkn (tiledDstIndex_injective W n k hW h).symm
      simp only [List.getElem?_set_ne hne]
      exact h2
  · intro i hi
    have hne : tiledDstIndex (4 * W) n ≠ i := hi n (by omega)
    simp only [List.getElem?_set_ne hne]
    exact hrest i (fun k hk => hi k (by omega))

theorem decode_row_of_block (src dst0 : List Nat) (W H b a iy : Nat) (st : DecodeState)
    (hW : 0 < W) (hsrc : 2 * (16 * (H * W)) ≤ src.length) (hdst : 16 * (H * W) ≤ dst0.length)
    (hb : b < H) (ha : a < W) (hiy : iy < 4)
    (hs : st.src = 2 * (16 * (b * W + a) + 4 * iy))
    (hD : Decoded src dst0 (4 * W) (16 * (b * W + a) + 4 * iy) st) :
    ∃ st', forLoopInt 4 1 (fun j st2 =>
        decodeTexel src ((4 * b + iy) * (4 * W) + 4 * a + j) (st2.src + 2 * j) st2) 5 0 st
          = some st' ∧
      st'.src = 2 * (16 * (b * W + a) + 4 * iy) ∧
      Decoded src dst0 (4 * W) (16 * (b * W + a) + 4 * iy + 4) st' := by
  have hm := block_count_lt W H b a hb ha
  obtain ⟨j', st', hj', hrun, hle, hs', hD'⟩ := forLoopInt_inv 4 1 (by omega) (by norm_num)
    (fun j st2 => decodeTexel src ((4 * b + iy) * (4 * W) + 4 * a + j) (st2.src + 2 * j) st2)
    (fun j st2 => j ≤ 4 ∧ st2.src = 2 * (16 * (b * W + a) + 4 * iy) ∧
      Decoded src dst0 (4 * W) (16 * (b * W + a) + 4 * iy + j) st2)
    (by
      intro j s hj ⟨_, hsj, hDj⟩
      have hidx := tiledDstIndex_block W b a iy j ha hiy hj
      have e1 : ((b * W + a) * 4 + iy) * 4 + j = 16 * (b * W + a) + 4 * iy + j := by omega
      rw [e1] at hidx
      have e2 : s.src + 2 * j = 2 * (16 * (b * W + a) + 4 * iy + j) := by omega
      obtain ⟨s', h1, h2, h3⟩ := decodeTexel_step src dst0 W H _ s hW hsrc hdst
        (by omega) hDj
      refine ⟨s', ?_, by omega, by rw [h2]; exact hsj, h3⟩
      show decodeTexel src ((4 * b + iy) * (4 * W) + 4 * a + j) (s.src + 2 * j) s = some s'
      rw [e2, ← hidx]
      exact h1)
    5 0 st (by omega) (by omega) ⟨by omega, hs, hD⟩
  have hj4 : j' = 4 := by omega
  subst hj4
  exact ⟨st', hrun, hs', hD'⟩

theorem decode_block (src dst0 : List Nat) (W H b a : Nat) (st : DecodeState)
    (hW : 0 < W) (hint : 2 * (16 * (H * W)) < 2 ^ 31)
    (hsrc : 2 * (16 * (H * W)) ≤ src.length) (hdst : 16 * (H * W) ≤ dst0.length)
    (hb : b < H) (ha : a < W)
    (hs : st.src = 2 * (16 * (b * W + a)))
    (hD : Decoded src dst0 (4 * W) (16 * (b * W + a)) st) :
    ∃ st', forLoopInt 4 1 (fun iy st1 =>
        (checkedInt ((4 * b + iy) * (4 * W) + 4 * a)).bind fun off =>
          (forLoopInt 4 1 (fun j st2 =>
              decodeTexel src (off + j) (st2.src + 2 * j) st2)
            5 0 st1).map fun st3 => { st3 with src := st3.src + 8 }) 5 0 st = some st' ∧
      st'.src = 2 * (16 * (b * W + (a + 1))) ∧
      Decoded src dst0 (4 * W) (16 * (b * W + (a + 1))) st' := by
  obtain ⟨i', st', hi', hrun, hle, hs', hD'⟩ := forLoopInt_inv 4 1 (by omega) (by norm_num)
    (fun iy st1 =>
        (checkedInt ((4 * b + iy) * (4 * W) + 4 * a)).bind fun off =>
          (forLoopInt 4 1 (fun j st2 =>
              decodeTexel src (off + j) (st2.src + 2 * j) st2)
            5 0 st1).map fun st3 => { st3 with src := st3.src + 8 })
    (fun iy st1 => iy ≤ 4 ∧ st1.src = 2 * (16 * (b * W + a) + 4 * iy) ∧
      Decoded src dst0 (4 * W) (16 * (b * W + a) + 4 * iy) st1)
    (by
      intro iy s hiy ⟨_, hsi, hDi⟩
      obtain ⟨s', h1, h2, h3⟩ := decode_row_of_block src dst0 W H b a iy s hW hsrc hdst hb ha
        hiy hsi hDi
      have hoff := block_index_lt W H b a iy 0 hb ha hiy (by omega)
      refine ⟨{ s' with src := s'.src + 8 }, ?_, by omega, ?_, ?_⟩
      · show Option.bind (checkedInt ((4 * b + iy) * (4 * W) + 4 * a)) _ = _
        rw [checkedInt_of_le _ (by omega), Option.some_bind, h1]; rfl
      · show s'.src + 8 = _
        omega
      · have e : 16 * (b * W + a) + 4 * (iy + 1) = 16 * (b * W + a) + 4 * iy + 4 := by omega
        rw [e]
        exact h3)
    5 0 st (by omega) (by omega) ⟨by omega, by omega, by simpa using hD⟩
  have hi4 : i' = 4 := by omega
  subst hi4
  refine ⟨st', hrun, by omega, ?_⟩
  have e : 16 * (b * W + (a + 1)) = 16 * (b * W + a) + 4 * 4 := by omega
  rw [e]
  exact hD'

theorem decode_block_row (src dst0 : List Nat) (W H b : Nat) (st : DecodeState)
    (hW : 0 < W) (hint : 2 * (16 * (H * W)) < 2 ^ 31)
    (hsrc : 2 * (16 * (H * W)) ≤ src.length) (hdst : 16 * (H * W) ≤ dst0.length)
    (hb : b < H)
    (hs : st.src = 2 * (16 * (b * W)))
    (hD : Decoded src dst0 (4 * W) (16 * (b * W)) st) :
    ∃ st', forLoopInt (4 * W) 4 (fun x =>
        forLoopInt 4 1 (fun iy st1 =>
          (checkedInt ((4 * b + iy) * (4 * W) + x)).bind fun off =>
            (forLoopInt 4 1 (fun j st2 =>
                decodeTexel src (off + j) (st2.src + 2 * j) st2)
              5 0 st1).map fun st3 => { st3 with src := st3.src + 8 }) 5 0) (4 * W + 1) 0 st
          = some st' ∧
      st'.src = 2 * (16 * ((b + 1) * W)) ∧
      Decoded src dst0 (4 * W) (16 * ((b + 1) * W)) st' := by
  have hdims := dims_in_int_range W H hW (by omega) hint
  obtain ⟨x', st', hx', hrun, ⟨a, hxa, haW, hs', hD'⟩⟩ := forLoopInt_inv (4 * W) 4 (by omega)
    (by omega)
    (fun x =>
        forLoopInt 4 1 (fun iy st1 =>
          (checkedInt ((4 * b + iy) * (4 * W) + x)).bind fun off =>
            (forLoopInt 4 1 (fun j st2 =>
                decodeTexel src (off + j) (st2.src + 2 * j) st2)
              5 0 st1).map fun st3 => { st3 with src := st3.src + 8 }) 5 0)
    (fun x st1 => ∃ a, x = 4 * a ∧ a ≤ W ∧ st1.src = 2 * (16 * (b * W + a)) ∧
      Decoded src dst0 (4 * W) (16 * (b * W + a)) st1)
    (by
      rintro x s hx ⟨a, rfl, _, hsa, hDa⟩
      obtain ⟨s', h1, h2, h3⟩ := decode_block src dst0 W H b a s hW hint hsrc hdst hb
        (by omega) hsa hDa
      exact ⟨s', h1, a + 1, by omega, by omega, h2, h3⟩)
    (4 * W + 1) 0 st (by omega) (by omega) ⟨0, by omega, by omega, by simpa using hs,
      by simpa using hD⟩
  have haW2 : a = W := by omega
  subst haW2
  have e : (b + 1) * a = b * a + a := by ring
  rw [e]
  exact ⟨st', hrun, hs', hD'⟩

theorem decode_image (src dst0 : List Nat) (W H : Nat) (hW : 0 < W) (hH : 0 < H)
    (hint : 2 * (16 * (H * W)) < 2 ^ 31)
    (hsrc : 2 * (16 * (H * W)) ≤ src.length) (hdst : 16 * (H * W) ≤ dst0.length) :
    ∃ st', DecodeOnCPU dst0 src (4 * W) (4 * H) TexType.TYPE_RGB565 = some st' ∧
      Decoded src dst0 (4 * W) (16 * (H * W)) st' := by
  have hdims := dims_in_int_range W H hW hH hint
  obtain ⟨y', st', hy', hrun, ⟨b, hyb, hbH, hs', hD'⟩⟩ := forLoopInt_inv (4 * H) 4 (by omega)
    (by omega)
    (fun y =>
      forLoopInt (4 * W) 4 (fun x =>
        forLoopInt 4 1 (fun iy st1 =>
          (checkedInt ((y + iy) * (4 * W) + x)).bind fun off =>
            (forLoopInt 4 1 (fun j st2 =>
                decodeTexel src (off + j) (st2.src + 2 * j) st2)
              5 0 st1).map fun st3 => { st3 with src := st3.src + 8 }) 5 0) (4 * W + 1) 0)
    (fun y st1 => ∃ b, y = 4 * b ∧ b ≤ H ∧ st1.src = 2 * (16 * (b * W)) ∧
      Decoded src dst0 (4 * W) (16 * (b * W)) st1)
    (by
      rintro y s hy ⟨b, rfl, _, hsb, hDb⟩
      obtain ⟨s', h1, h2, h3⟩ := decode_block_row src dst0 W H b s hW hint hsrc hdst
        (by omega) hsb hDb
      exact ⟨s', h1, b + 1, by omega, by omega, h2, h3⟩)
    (4 * H + 1) 0 { dst := dst0, src := 0, log := [] } (by omega) (by omega)
    ⟨0, by omega, by omega, by simp, by simp [Decoded]⟩
  have hbH2 : b = H := by omega
  subst hbH2
  refine ⟨st', ?_, hD'⟩
  unfold DecodeOnCPU
  rw [checkedInt_of_le _ (by omega), checkedInt_of_le _ (by omega)]
  exact hrun

/-! ### Consequences for whole images -/

theorem decodePixel_alpha (val : Nat) : alphaChannel (DecodePixel_RGB565 val) = 255 := by
  unfold DecodePixel_RGB565 alphaChannel
  have hr : Convert5To8 (redField val) < 2 ^ 24 :=
    Nat.lt_of_lt_of_le (Nat.mod_lt _ (by norm_num)) (by norm_num)
  have hg : Convert6To8 (greenField val) <<< 8 < 2 ^ 24 := by
    have : Convert6To8 (greenField val) < 256 := Nat.mod_lt _ (by norm_num)
    rw [Nat.shiftLeft_eq]; omega
  have hb : Convert5To8 (blueField val) <<< 16 < 2 ^ 24 := by
    have : Convert5To8 (blueField val) < 256 := Nat.mod_lt _ (by norm_num)
    rw [Nat.shiftLeft_eq]; omega
  have hX := Nat.or_lt_two_pow (Nat.or_lt_two_pow hr hg) hb
  have e : (0xFF : Nat) <<< 24 = 2 ^ 24 * 255 := by decide
  simp only []
  rw [Nat.lor_comm, e, ← Nat.mul_add_lt_is_or hX, Nat.shiftRight_eq_div_pow]
  omega

theorem tiledDstIndex_tiledSrcIndex (W x y : Nat) (hx : x < 4 * W) :
    tiledDstIndex (4 * W) (tiledSrcIndex (4 * W) x y) = y * (4 * W) + x := by
  unfold tiledSrcIndex
  have e4 : 4 * W / 4 = W := by omega
  rw [e4, tiledDstIndex_block W (y / 4) (x / 4) (y % 4) (x % 4) (by omega) (by omega) (by omega)]
  have e1 : 4 * (y / 4) + y % 4 = y := by omega
  rw [e1]
  omega

theorem tiledSrcIndex_lt (W H x y : Nat) (hx : x < 4 * W) (hy : y < 4 * H) :
    tiledSrcIndex (4 * W) x y < 16 * (H * W) := by
  unfold tiledSrcIndex
  have e4 : 4 * W / 4 = W := by omega
  rw [e4]
  have := block_count_lt W H (y / 4) (x / 4) (by omega) (by omega)
  omega

/-- The whole-image behaviour of `DecodeOnCPU` on dimensions that are positive multiples
of 4 and whose buffer size `width * height * 2` is in the range of `int`, with a source of
`width * height * 2` bytes and room for `width * height` pixels. -/
theorem decodeOnCPU_decoded (dst src : List Nat) (width height : Nat)
    (hw0 : 0 < width) (hh0 : 0 < height) (hw : 4 ∣ width) (hh : 4 ∣ height)
    (hint : width * height * 2 < 2 ^ 31)
    (hsrc : src.length = width * height * 2) (hdst : width * height ≤ dst.length) :
    ∃ r, DecodeOnCPU dst src width height TexType.TYPE_RGB565 = some r ∧
      Decoded src dst width (width * height) r := by
  obtain ⟨W, rfl⟩ := hw
  obtain ⟨H, rfl⟩ := hh
  have e : 4 * W * (4 * H) = 16 * (H * W) := by ring
  rw [e] at hsrc hdst hint ⊢
  exact decode_image src dst W H (by omega) (by omega) (by omega) (by omega) hdst

theorem decoded_pixel_at (dst src : List Nat) (width height x y : Nat) (r : DecodeState)
    (hw : 4 ∣ width) (hh : 4 ∣ height) (hx : x < width) (hy : y < height)
    (hD : Decoded src dst width (width * height) r) :
    ∃ t, load16 src (2 * tiledSrcIndex width x y) = some t ∧
      r.dst[y * width + x]? = some (DecodePixel_RGB565 (swap16 t)) := by
  obtain ⟨W, rfl⟩ := hw
  obtain ⟨H, rfl⟩ := hh
  have e : 4 * W * (4 * H) = 16 * (H * W) := by ring
  rw [e] at hD
  obtain ⟨t, h1, h2⟩ := hD.2.2.1 (tiledSrcIndex (4 * W) x y) (tiledSrcIndex_lt W H x y hx hy)
  rw [tiledDstIndex_tiledSrcIndex W x y hx] at h2
  exact ⟨t, h1, h2⟩

theorem decoded_index_split (width height i : Nat) (hw0 : 0 < width) (hi : i < width * height) :
    i % width < width ∧ i / width < height ∧ i / width * width + i % width = i := by
  refine ⟨Nat.mod_lt _ hw0, Nat.div_lt_of_lt_mul hi, ?_⟩
  rw [Nat.mul_comm]
  exact Nat.div_add_mod _ _

theorem decoded_written_iff (dst src : List Nat) (width height i : Nat) (r : DecodeState)
    (hw0 : 0 < width) (hw : 4 ∣ width) (hh : 4 ∣ height)
    (hD : Decoded src dst width (width * height) r) :
    i ∈ r.log.map Prod.snd ↔ i < width * height := by
  rw [hD.2.1]
  simp only [List.map_map, List.mem_map, List.mem_range, Function.comp]
  obtain ⟨W, rfl⟩ := hw
  obtain ⟨H, rfl⟩ := hh
  have e : 4 * W * (4 * H) = 16 * (H * W) := by ring
  constructor
  · rintro ⟨k, hk, rfl⟩
    rw [e] at hk ⊢
    exact tiledDstIndex_lt W H k (by omega) hk
  · intro hi
    obtain ⟨h1, h2, h3⟩ := decoded_index_split (4 * W) (4 * H) i hw0 hi
    refine ⟨tiledSrcIndex (4 * W) (i % (4 * W)) (i / (4 * W)), ?_, ?_⟩
    · rw [e]; exact tiledSrcIndex_lt W H _ _ h1 h2
    · rw [tiledDstIndex_tiledSrcIndex W _ _ h1]; exact h3

/-- The overflow outcome of the model: for the `int` width 2^31 - 4, a multiple of 4, the
computation of `Wsteps8` from `width + 7` is not representable and the run has no result. -/
theorem decodeOnCPU_width_overflow (dst src : List Nat) (height : Nat) :
    DecodeOnCPU dst src (2 ^ 31 - 4) height TexType.TYPE_RGB565 = none := by
  simp [DecodeOnCPU, checkedInt, INT_MAX]

/-! ### Claims about `DecodeOnCPU` -/

/-- C1 as stated fails: on an 8x4 image whose only non-zero byte belongs to the texel at
row-major index 4, the pixel at (x, y) = (4, 0) is not the decoding of that texel. -/
theorem decodeOnCPU_not_row_major :
    ¬ (∃ r t, DecodeOnCPU (List.replicate 32 0) rowMajorProbeSrc 8 4 TexType.TYPE_RGB565 = some r ∧
        load16 rowMajorProbeSrc (2 * (0 * 8 + 4)) = some t ∧
        r.dst[0 * 8 + 4]? = some (DecodePixel_RGB565 (swap16 t))) := by
  rintro ⟨r, t, h1, h2, h3⟩
  have e1 : (DecodeOnCPU (List.replicate 32 0) rowMajorProbeSrc 8 4 TexType.TYPE_RGB565).bind
      (fun r => r.dst[0 * 8 + 4]?) = some 0xFF000000 := by decide
  have e2 : (load16 rowMajorProbeSrc (2 * (0 * 8 + 4))).map
      (fun t => DecodePixel_RGB565 (swap16 t)) = some 0xFF00E3FF := by decide
  rw [h1] at e1
  rw [h2] at e2
  simp only [Option.some_bind, Option.map_some'] at e1 e2
  rw [h3] at e1
  rw [Option.some.injEq] at e1 e2
  omega

/-- C1, amended: for width and height positive multiples of 4 with width*height*2 in the
range of int (below 2^31), a source of width*height 16-bit texels and a coordinate (x, y)
inside the image, DecodeOnCPU leaves in dst[y*width + x] the value
DecodePixel_RGB565(swap16(t)), where t is the 16-bit value at source index
((y/4 * (width/4) + x/4) * 4 + y%4) * 4 + x%4: the source is read as consecutive 4x4
blocks. -/
theorem decodeOnCPU_tiled_source (dst src : List Nat) (width height x y : Nat)
    (hw0 : 0 < width) (hh0 : 0 < height) (hw : 4 ∣ width) (hh : 4 ∣ height)
    (hint : width * height * 2 < 2 ^ 31)
    (hsrc : src.length = width * height * 2) (hdst : width * height ≤ dst.length)
    (hx : x < width) (hy : y < height) :
    ∃ r t, DecodeOnCPU dst src width height TexType.TYPE_RGB565 = some r ∧
      load16 src (2 * (((y / 4 * (width / 4) + x / 4) * 4 + y % 4) * 4 + x % 4)) = some t ∧
      r.dst[y * width + x]? = some (DecodePixel_RGB565 (swap16 t)) := by
  obtain ⟨r, hr, hD⟩ := decodeOnCPU_decoded dst src width height hw0 hh0 hw hh hint hsrc hdst
  obtain ⟨t, h1, h2⟩ := decoded_pixel_at dst src width height x y r hw hh hx hy hD
  exact ⟨r, t, hr, h1, h2⟩

/-- Witness of the amended C1: the 8x4 probe image at (x, y) = (4, 0). -/
theorem decodeOnCPU_tiled_source_witness :
    (8 * 4 * 2 < 2 ^ 31 ∧ rowMajorProbeSrc.length = 8 * 4 * 2) ∧
    ∃ r t, DecodeOnCPU (List.replicate 32 0) rowMajorProbeSrc 8 4 TexType.TYPE_RGB565 = some r ∧
      load16 rowMajorProbeSrc (2 * (((0 / 4 * (8 / 4) + 4 / 4) * 4 + 0 % 4) * 4 + 4 % 4)) = some t ∧
      r.dst[0 * 8 + 4]? = some (DecodePixel_RGB565 (swap16 t)) :=
  ⟨by decide, decodeOnCPU_tiled_source (List.replicate 32 0) rowMajorProbeSrc 8 4 4 0
    (by decide) (by decide) (by decide) (by decide) (by decide) (by decide) (by decide)
    (by decide) (by decide)⟩

/-- C2: for width and height positive multiples of 4 with width*height*2 in the range of
int (below 2^31) and a source of width*height*2 bytes, DecodeOnCPU completes, performs
width*height stores, stores to exactly the destination indices below width*height, leaves
every other entry and the buffer length unchanged, and every pixel below width*height has
alpha channel 255. -/
theorem decodeOnCPU_alpha_opaque (dst src : List Nat) (width height : Nat)
    (hw0 : 0 < width) (hh0 : 0 < height) (hw : 4 ∣ width) (hh : 4 ∣ height)
    (hint : width * height * 2 < 2 ^ 31)
    (hsrc : src.length = width * height * 2) (hdst : width * height ≤ dst.length) :
    ∃ r, DecodeOnCPU dst src width height TexType.TYPE_RGB565 = some r ∧
      r.dst.length = dst.length ∧ r.log.length = width * height ∧
      (∀ i, i ∈ r.log.map Prod.snd ↔ i < width * height) ∧
      (∀ i, i < width * height → ∃ p, r.dst[i]? = some p ∧ alphaChannel p = 255) ∧
      (∀ i, width * height ≤ i → r.dst[i]? = dst[i]?) := by
  obtain ⟨r, hr, hD⟩ := decodeOnCPU_decoded dst src width height hw0 hh0 hw hh hint hsrc hdst
  refine ⟨r, hr, hD.1, by simp [hD.2.1], ?_, ?_, ?_⟩
  · intro i
    exact decoded_written_iff dst src width height i r hw0 hw hh hD
  · intro i hi
    obtain ⟨h1, h2, h3⟩ := decoded_index_split width height i hw0 hi
    obtain ⟨t, _, ht⟩ := decoded_pixel_at dst src width height _ _ r hw hh h1 h2 hD
    rw [h3] at ht
    exact ⟨_, ht, decodePixel_alpha _⟩
  · intro i hi
    apply hD.2.2.2
    intro k hk heq
    have : i ∈ r.log.map Prod.snd := by
      rw [hD.2.1]
      simp only [List.map_map, List.mem_map, List.mem_range, Function.comp]
      exact ⟨k, hk, heq⟩
    have := (decoded_written_iff dst src width height i r hw0 hw hh hD).1 this
    omega

/-- Witness of C2: the 8x4 image of two blocks, destination initially all zero. -/
theorem decodeOnCPU_alpha_opaque_witness :
    (8 * 4 * 2 < 2 ^ 31 ∧ (List.range 64).length = 8 * 4 * 2) ∧
    ∃ r, DecodeOnCPU (List.replicate 40 0) (List.range 64) 8 4 TexType.TYPE_RGB565 = some r ∧
      r.dst.length = (List.replicate 40 0).length ∧ r.log.length = 8 * 4 ∧
      (∀ i, i ∈ r.log.map Prod.snd ↔ i < 8 * 4) ∧
      (∀ i, i < 8 * 4 → ∃ p, r.dst[i]? = some p ∧ alphaChannel p = 255) ∧
      (∀ i, 8 * 4 ≤ i → r.dst[i]? = (List.replicate 40 0)[i]?) :=
  ⟨by decide, decodeOnCPU_alpha_opaque (List.replicate 40 0) (List.range 64) 8 4
    (by decide) (by decide) (by decide) (by decide) (by decide) (by decide) (by decide)⟩

/-- C10: for width and height positive multiples of 4 with width*height*2 in the range of
int (below 2^31), a source of exactly width*height*2 bytes and a destination of at least
width*height entries, DecodeOnCPU completes with every access in bounds and no int
overflow; the loads are those of the source words 0 .. width*height-1, each once
and in order; the stored indices are a permutation of 0 .. width*height-1; and the word
k = ((by*(width/4) + bx)*4 + iy)*4 + j is the k-th access, decoded into
dst[(4*by + iy)*width + 4*bx + j]. -/
theorem decodeOnCPU_tiled_bijection (dst src : List Nat) (width height : Nat)
    (hw0 : 0 < width) (hh0 : 0 < height) (hw : 4 ∣ width) (hh : 4 ∣ height)
    (hint : width * height * 2 < 2 ^ 31)
    (hsrc : src.length = width * height * 2) (hdst : width * height ≤ dst.length) :
    ∃ r, DecodeOnCPU dst src width height TexType.TYPE_RGB565 = some r ∧
      (∀ p, p ∈ r.log → p.1 + 1 < src.length ∧ p.2 < dst.length) ∧
      r.log.map Prod.fst = (List.range (width * height)).map (fun k => 2 * k) ∧
      (r.log.map Prod.snd).Perm (List.range (width * height)) ∧
      (∀ b a iy j, b < height / 4 → a < width / 4 → iy < 4 → j < 4 →
        ((b * (width / 4) + a) * 4 + iy) * 4 + j < width * height ∧
        (4 * b + iy) * width + 4 * a + j < width * height ∧
        r.log[((b * (width / 4) + a) * 4 + iy) * 4 + j]? =
          some (2 * (((b * (width / 4) + a) * 4 + iy) * 4 + j), (4 * b + iy) * width + 4 * a + j) ∧
        ∃ t, load16 src (2 * (((b * (width / 4) + a) * 4 + iy) * 4 + j)) = some t ∧
          r.dst[(4 * b + iy) * width + 4 * a + j]? = some (DecodePixel_RGB565 (swap16 t))) := by
  obtain ⟨r, hr, hD⟩ := decodeOnCPU_decoded dst src width height hw0 hh0 hw hh hint hsrc hdst
  have hmem : ∀ i, i ∈ r.log.map Prod.snd ↔ i < width * height := fun i =>
    decoded_written_iff dst src width height i r hw0 hw hh hD
  refine ⟨r, hr, ?_, ?_, ?_, ?_⟩
  · intro p hp
    have h2 : p.2 < width * height := (hmem p.2).1 (List.mem_map_of_mem Prod.snd hp)
    rw [hD.2.1] at hp
    simp only [List.mem_map, List.mem_range] at hp
    obtain ⟨k, hk, rfl⟩ := hp
    constructor
    · show 2 * k + 1 < src.length
      omega
    · omega
  · rw [hD.2.1]
    simp [List.map_map, Function.comp]
  · have hnd : (r.log.map Prod.snd).Nodup := by
      rw [hD.2.1, List.map_map]
      refine List.Nodup.map_on ?_ (List.nodup_range _)
      intro k1 _ k2 _ h
      obtain ⟨W, rfl⟩ := hw
      exact tiledDstIndex_injective W k1 k2 (by omega) h
    have hsub : r.log.map Prod.snd ⊆ List.range (width * height) := by
      intro i hi
      exact List.mem_range.2 ((hmem i).1 hi)
    refine (List.subperm_of_subset hnd hsub).perm_of_length_le ?_
    simp [hD.2.1]
  · intro b a iy j hb ha hiy hj
    obtain ⟨W, rfl⟩ := hw
    obtain ⟨H, rfl⟩ := hh
    have e4 : 4 * W / 4 = W := by omega
    have e5 : 4 * H / 4 = H := by omega
    rw [e4] at ha ⊢
    rw [e5] at hb
    have e : 4 * W * (4 * H) = 16 * (H * W) := by ring
    have hm := block_count_lt W H b a hb ha
    have hk : ((b * W + a) * 4 + iy) * 4 + j < 4 * W * (4 * H) := by rw [e]; omega
    have hidx := tiledDstIndex_block W b a iy j ha hiy hj
    obtain ⟨t, h1, h2⟩ := hD.2.2.1 _ hk
    rw [hidx] at h2
    refine ⟨hk, ?_, ?_, t, h1, h2⟩
    · have := tiledDstIndex_lt W H _ (by omega) (by rw [e] at hk; exact hk)
      rw [hidx] at this
      omega
    · rw [hD.2.1, List.getElem?_map, List.getElem?_range hk]
      simp [hidx]

/-- Witness of C10: an 8x4 image, two blocks, on which the block order differs from the
row-major order: source word 16 goes to destination index 4. -/
theorem decodeOnCPU_tiled_bijection_witness :
    (8 * 4 * 2 < 2 ^ 31 ∧ (List.range 64).length = 8 * 4 * 2) ∧
    ∃ r, DecodeOnCPU (List.replicate 32 0) (List.range 64) 8 4 TexType.TYPE_RGB565 = some r ∧
      (∀ p, p ∈ r.log → p.1 + 1 < (List.range 64).length ∧ p.2 < (List.replicate 32 0).length) ∧
      r.log.map Prod.fst = (List.range (8 * 4)).map (fun k => 2 * k) ∧
      (r.log.map Prod.snd).Perm (List.range (8 * 4)) ∧
      (∀ b a iy j, b < 4 / 4 → a < 8 / 4 → iy < 4 → j < 4 →
        ((b * (8 / 4) + a) * 4 + iy) * 4 + j < 8 * 4 ∧
        (4 * b + iy) * 8 + 4 * a + j < 8 * 4 ∧
        r.log[((b * (8 / 4) + a) * 4 + iy) * 4 + j]? =
          some (2 * (((b * (8 / 4) + a) * 4 + iy) * 4 + j), (4 * b + iy) * 8 + 4 * a + j) ∧
        ∃ t, load16 (List.range 64) (2 * (((b * (8 / 4) + a) * 4 + iy) * 4 + j)) = some t ∧
          r.dst[(4 * b + iy) * 8 + 4 * a + j]? = some (DecodePixel_RGB565 (swap16 t))) :=
  ⟨by decide, decodeOnCPU_tiled_bijection (List.replicate 32 0) (List.range 64) 8 4
    (by decide) (by decide) (by decide) (by decide) (by decide) (by decide) (by decide)⟩

/-! ### Pattern generator -/

theorem advanceShift_eq (w s : Nat) (hw : w < 2 ^ 31) (hs : s ≤ w) :
    advanceShift w s = if 2 * s > w then 1 else 2 * s := by
  unfold advanceShift
  simp only [Nat.shiftLeft_eq]
  have e1 : s * 2 ^ 1 % 2 ^ 32 = 2 * s := by omega
  have e2 : w % 2 ^ 32 = w := by omega
  rw [e1, e2]

theorem stripeWidthAfter_pow (w : Nat) (hw1 : 1 ≤ w) (hw : w < 2 ^ 31) (n : Nat) :
    (∃ k, stripeWidthAfter w n = 2 ^ k) ∧ stripeWidthAfter w n ≤ w := by
  induction n with
  | zero => exact ⟨⟨0, rfl⟩, hw1⟩
  | succ n ih =>
    obtain ⟨⟨k, hk⟩, hle⟩ := ih
    show (∃ k, advanceShift w (stripeWidthAfter w n) = 2 ^ k) ∧
      advanceShift w (stripeWidthAfter w n) ≤ w
    rw [advanceShift_eq w _ hw hle]
    split
    · exact ⟨⟨0, rfl⟩, hw1⟩
    · refine ⟨⟨k + 1, ?_⟩, by omega⟩
      rw [hk, pow_succ]; ring

theorem stripeWidthAfter_doubling (w : Nat) (hw : w < 2 ^ 31) (n : Nat) (hn : 2 ^ n ≤ w) :
    stripeWidthAfter w n = 2 ^ n := by
  induction n with
  | zero => rfl
  | succ n ih =>
    have h2 : 2 ^ (n + 1) = 2 * 2 ^ n := by rw [pow_succ]; ring
    have ih' := ih (by omega)
    show advanceShift w (stripeWidthAfter w n) = 2 ^ (n + 1)
    rw [advanceShift_eq w _ hw (by omega), ih', if_neg (by omega), h2]

theorem store16_load16 (mem : List Nat) (off v : Nat) (h : off + 1 < mem.length)
    (hv : v < 65536) :
    ∃ d, store16 mem off v = some d ∧ d.length = mem.length ∧ load16 d off = some v ∧
      ∀ o, o + 1 < off ∨ off + 1 < o → load16 d o = load16 mem o := by
  refine ⟨(mem.set off (v % 256)).set (off + 1) (v / 256 % 256), by simp [store16, h],
    by simp, ?_, ?_⟩
  · unfold load16
    have h1 : ((mem.set off (v % 256)).set (off + 1) (v / 256 % 256))[off]? = some (v % 256) := by
      rw [List.getElem?_set_ne (by omega), List.getElem?_set_self (by omega)]
    have h2 : ((mem.set off (v % 256)).set (off + 1) (v / 256 % 256))[off + 1]?
        = some (v / 256 % 256) := by
      rw [List.getElem?_set_self (by simp; omega)]
    rw [h1, h2]
    simp only [Option.some.injEq]
    omega
  · intro o ho
    unfold load16
    rw [List.getElem?_set_ne (by omega), List.getElem?_set_ne (by omega),
      List.getElem?_set_ne (by omega), List.getElem?_set_ne (by omega)]

/-- The stripe value written to column `x`. -/
theorem stripe_value_lt (x s : Nat) :
    (if x &&& s ≠ 0 then 0xE0FF else 0xFF07) < 65536 := by
  split <;> decide

theorem fillStripes_row (w h s y : Nat) (d0 : List Nat) (hy : y < h)
    (hlen : d0.length = w * h * 2)
    (hD : ∀ k, k < y * w → load16 d0 (2 * k) = some (if k % w &&& s ≠ 0 then 0xE0FF else 0xFF07)) :
    ∃ d, forLoop w 1 (fun x d =>
        let i := (y * w + x) * 2
        if x &&& s ≠ 0 then store16 d i 0xE0FF else store16 d i 0xFF07) (w + 1) 0 d0 = some d ∧
      d.length = w * h * 2 ∧
      ∀ k, k < (y + 1) * w →
        load16 d (2 * k) = some (if k % w &&& s ≠ 0 then 0xE0FF else 0xFF07) := by
  obtain ⟨x', d, hx', hrun, hle, hl, hD'⟩ := forLoop_inv w 1 (by omega)
    (fun x d =>
        let i := (y * w + x) * 2
        if x &&& s ≠ 0 then store16 d i 0xE0FF else store16 d i 0xFF07)
    (fun x d => x ≤ w ∧ d.length = w * h * 2 ∧
      ∀ k, k < y * w + x →
        load16 d (2 * k) = some (if k % w &&& s ≠ 0 then 0xE0FF else 0xFF07))
    (by
      intro x d hx ⟨_, hl, hDx⟩
      have hlt := block_count_lt w h y x hy hx
      have hsw : h * w = w * h := Nat.mul_comm _ _
      obtain ⟨d', h1, h2, h3, h4⟩ := store16_load16 d ((y * w + x) * 2)
        (if x &&& s ≠ 0 then 0xE0FF else 0xFF07) (by omega) (stripe_value_lt x s)
      refine ⟨d', ?_, by omega, by omega, ?_⟩
      · show (if x &&& s ≠ 0 then store16 d ((y * w + x) * 2) 0xE0FF
          else store16 d ((y * w + x) * 2) 0xFF07) = some d'
        rw [← h1]
        split <;> rfl
      · intro k hk
        by_cases hkn : k = y * w + x
        · subst hkn
          rw [(block_split w y x hx).2]
          have e : 2 * (y * w + x) = (y * w + x) * 2 := by omega
          rw [e]
          exact h3
        · rw [h4 _ (by omega)]
          exact hDx k (by omega))
    (w + 1) 0 d0 (by omega) (by omega) ⟨by omega, hlen, by simpa using hD⟩
  have hxw : x' = w := by omega
  subst hxw
  refine ⟨d, hrun, hl, ?_⟩
  intro k hk
  have e : (y + 1) * x' = y * x' + x' := by ring
  exact hD' k (by omega)

theorem fillStripes_spec (w h s : Nat) (data : List Nat) (hlen : data.length = w * h * 2) :
    ∃ d, fillStripes w h s data = some d ∧ d.length = data.length ∧
      ∀ x y, x < w → y < h →
        load16 d ((y * w + x) * 2) = some (if x &&& s ≠ 0 then 0xE0FF else 0xFF07) := by
  obtain ⟨y', d, hy', hrun, hle, hl, hD⟩ := forLoop_inv h 1 (by omega)
    (fun y =>
      forLoop w 1 (fun x d =>
        let i := (y * w + x) * 2
        if x &&& s ≠ 0 then store16 d i 0xE0FF else store16 d i 0xFF07) (w + 1) 0)
    (fun y d => y ≤ h ∧ d.length = w * h * 2 ∧
      ∀ k, k < y * w →
        load16 d (2 * k) = some (if k % w &&& s ≠ 0 then 0xE0FF else 0xFF07))
    (by
      intro y d hy ⟨_, hl, hDy⟩
      obtain ⟨d', h1, h2, h3⟩ := fillStripes_row w h s y d hy hl hDy
      exact ⟨d', h1, by omega, h2, h3⟩)
    (h + 1) 0 data (by omega) (by omega) ⟨by omega, hlen, by simp⟩
  have hyh : y' = h := by omega
  subst hyh
  refine ⟨d, hrun, by omega, ?_⟩
  intro x y hx hy
  have hlt := block_count_lt w y' y x hy hx
  have := hD (y * w + x) hlt
  rw [(block_split w y x hx).2] at this
  rw [Nat.mul_comm]
  exact this

theorem genRGB565_noop (s : PatternState) (now restart : Nat)
    (h : (s.m_cputime.End now).2 / 1000 < 2000) :
    ∃ s', GenRGB565 s now restart = some s' ∧ s'.data = s.data ∧
      s'.m_shift_val = s.m_shift_val ∧ s'.m_cputime.start = s.m_cputime.start ∧
      s'.m_w = s.m_w ∧ s'.m_h = s.m_h := by
  refine ⟨{ s with m_cputime := (s.m_cputime.End now).1 }, ?_, rfl, rfl, rfl, rfl, rfl⟩
  unfold GenRGB565
  simp only []
  rw [if_neg (by omega)]

theorem genRGB565_regenerates (s : PatternState) (now restart : Nat)
    (h : (s.m_cputime.End now).2 / 1000 ≥ 2000) (hlen : s.data.length = s.m_w * s.m_h * 2) :
    ∃ s', GenRGB565 s now restart = some s' ∧ s'.m_cputime.start = restart % 2 ^ 64 ∧
      s'.m_shift_val = advanceShift s.m_w s.m_shift_val ∧
      s'.m_w = s.m_w ∧ s'.m_h = s.m_h ∧ s'.data.length = s.data.length ∧
      ∀ x y, x < s.m_w → y < s.m_h →
        load16 s'.data ((y * s.m_w + x) * 2)
          = some (if x &&& s'.m_shift_val ≠ 0 then 0xE0FF else 0xFF07) := by
  obtain ⟨d, h1, h2, h3⟩ := fillStripes_spec s.m_w s.m_h (advanceShift s.m_w s.m_shift_val)
    s.data hlen
  refine ⟨{ s with m_cputime := (s.m_cputime.End now).1.Start restart,
                   m_shift_val := advanceShift s.m_w s.m_shift_val, data := d },
    ?_, rfl, rfl, rfl, rfl, h2, h3⟩
  unfold GenRGB565
  simp only []
  rw [if_pos h, h1]
  rfl

/-! ### Claims about `GenRGB565` -/

/-- C5: with the clock as an input, if a first call of GenRGB565 leaves the state tc1 and
the second call finds less than 2,000,000 us elapsed since the baseline in tc1, the second
call is a no-op: packed buffer, stripe width and timer baseline are those after the first
call.  In general a call changes none of them when floor(elapsed_us / 1000) < 2000, and
when it is >= 2000 it regenerates: the baseline becomes the new clock reading, the stripe
width advances and every texel of the buffer, of m_w * m_h * 2 bytes, receives its stripe
value. -/
theorem genRGB565_idempotent_in_window (tc tc1 : PatternState)
    (now1 restart1 now2 restart2 : Nat)
    (hfirst : GenRGB565 tc now1 restart1 = some tc1)
    (hwin : (tc1.m_cputime.End now2).2 < 2000000) :
    (∃ tc2, GenRGB565 tc1 now2 restart2 = some tc2 ∧ tc2.data = tc1.data ∧
        tc2.m_shift_val = tc1.m_shift_val ∧ tc2.m_cputime.start = tc1.m_cputime.start) ∧
    (∀ s now restart, (s.m_cputime.End now).2 / 1000 < 2000 →
      ∃ s', GenRGB565 s now restart = some s' ∧ s'.data = s.data ∧
        s'.m_shift_val = s.m_shift_val ∧ s'.m_cputime.start = s.m_cputime.start) ∧
    (∀ s now restart, (s.m_cputime.End now).2 / 1000 ≥ 2000 →
      s.data.length = s.m_w * s.m_h * 2 →
      ∃ s', GenRGB565 s now restart = some s' ∧ s'.m_cputime.start = restart % 2 ^ 64 ∧
        s'.m_shift_val = advanceShift s.m_w s.m_shift_val ∧
        s'.data.length = s.data.length ∧
        ∀ x y, x < s.m_w → y < s.m_h →
          load16 s'.data ((y * s.m_w + x) * 2)
            = some (if x &&& s'.m_shift_val ≠ 0 then 0xE0FF else 0xFF07)) := by
  have _ := hfirst
  refine ⟨?_, ?_, ?_⟩
  · obtain ⟨s', h1, h2, h3, h4, _⟩ := genRGB565_noop tc1 now2 restart2 (by omega)
    exact ⟨s', h1, h2, h3, h4⟩
  · intro s now restart h
    obtain ⟨s', h1, h2, h3, h4, _⟩ := genRGB565_noop s now restart h
    exact ⟨s', h1, h2, h3, h4⟩
  · intro s now restart h hlen
    obtain ⟨s', h1, h2, h3, _, _, h6, h7⟩ := genRGB565_regenerates s now restart h hlen
    exact ⟨s', h1, h2, h3, h6, h7⟩

/-- Witness of C5: a regenerating first call at reading 2000000, then a second call
1999994 us after the new baseline 2000005. -/
theorem genRGB565_idempotent_in_window_witness :
    GenRGB565 genProbe 2000000 2000005 = some genProbeAfter ∧
    (genProbeAfter.m_cputime.End 3999999).2 < 2000000 ∧
    ∃ tc2, GenRGB565 genProbeAfter 3999999 4000000 = some tc2 ∧ tc2.data = genProbeAfter.data ∧
      tc2.m_shift_val = genProbeAfter.m_shift_val ∧
      tc2.m_cputime.start = genProbeAfter.m_cputime.start :=
  ⟨by decide, by decide,
    (genRGB565_idempotent_in_window genProbe genProbeAfter 2000000 2000005 3999999 4000000
      (by decide) (by decide)).1⟩

/-- C6: for an image width w >= 1 (an `int`, so below 2^31), the stripe width after N
regenerations from the initial value 1 is a power of two and at most w; it is 2^N as long
as 2^N <= w, and it is 1 after the regeneration at which doubling exceeds w.  A call of
GenRGB565 advances the stripe width by exactly one regeneration when at least 2000 ms have
elapsed and leaves it unchanged otherwise. -/
theorem stripe_width_power_of_two (w N : Nat) (hw1 : 1 ≤ w) (hw : w < 2 ^ 31) :
    (∃ k, stripeWidthAfter w N = 2 ^ k) ∧ stripeWidthAfter w N ≤ w ∧
    (2 ^ N ≤ w → stripeWidthAfter w N = 2 ^ N) ∧
    (2 ^ N ≤ w → w < 2 ^ (N + 1) → stripeWidthAfter w (N + 1) = 1) ∧
    (∀ tc now restart tc', tc.m_w = w → tc.m_shift_val = stripeWidthAfter w N →
      GenRGB565 tc now restart = some tc' →
      tc'.m_shift_val =
        stripeWidthAfter w (if (tc.m_cputime.End now).2 / 1000 ≥ 2000 then N + 1 else N)) := by
  obtain ⟨hpow, hle⟩ := stripeWidthAfter_pow w hw1 hw N
  refine ⟨hpow, hle, stripeWidthAfter_doubling w hw N, ?_, ?_⟩
  · intro h1 h2
    have h3 : 2 ^ (N + 1) = 2 * 2 ^ N := by rw [pow_succ]; ring
    show advanceShift w (stripeWidthAfter w N) = 1
    rw [advanceShift_eq w _ hw hle, stripeWidthAfter_doubling w hw N h1, if_pos (by omega)]
  · intro tc now restart tc' hmw hs hrun
    unfold GenRGB565 at hrun
    simp only [] at hrun
    split at hrun
    · rename_i hge
      rw [if_pos hge]
      simp only [Option.map_eq_some'] at hrun
      obtain ⟨d, _, rfl⟩ := hrun
      show advanceShift tc.m_w tc.m_shift_val = advanceShift w (stripeWidthAfter w N)
      rw [hmw, hs]
    · rename_i hlt
      rw [if_neg hlt]
      simp only [Option.some.injEq] at hrun
      subst hrun
      exact hs

/-- Witness of C6: width 5 after 2 regenerations. -/
theorem stripe_width_power_of_two_witness :
    (1 ≤ 5 ∧ 5 < 2 ^ 31) ∧
    (∃ k, stripeWidthAfter 5 2 = 2 ^ k) ∧ stripeWidthAfter 5 2 ≤ 5 ∧
    (2 ^ 2 ≤ 5 → stripeWidthAfter 5 2 = 2 ^ 2) ∧
    (2 ^ 2 ≤ 5 → 5 < 2 ^ (2 + 1) → stripeWidthAfter 5 (2 + 1) = 1) ∧
    (∀ tc now restart tc', tc.m_w = 5 → tc.m_shift_val = stripeWidthAfter 5 2 →
      GenRGB565 tc now restart = some tc' →
      tc'.m_shift_val =
        stripeWidthAfter 5 (if (tc.m_cputime.End now).2 / 1000 ≥ 2000 then 2 + 1 else 2)) :=
  ⟨by decide, stripe_width_power_of_two 5 2 (by decide) (by decide)⟩

/-! ### Timing aggregation -/

theorem decodeImage_quiet (tc : TimingState) (c : Cycle)
    (h : c.interval tc.m_avgtime.start < 1000000) :
    DecodeImage tc c = some
      ({ m_avgtime := (tc.m_avgtime.End c.avgNow).1,
         totaltime_gpu := (tc.totaltime_gpu + c.gpuDuration) % 2 ^ 64,
         totaltime_cpu := (tc.totaltime_cpu + c.cpuDuration) % 2 ^ 64,
         num_times := (tc.num_times + 1) % 2 ^ 64 }, none) := by
  unfold DecodeImage
  simp only []
  have : ¬ (tc.m_avgtime.End c.avgNow).2 ≥ 1000 * 1000 := by
    show ¬ c.interval tc.m_avgtime.start ≥ 1000 * 1000
    omega
  rw [if_neg this]

theorem decodeImage_report (tc : TimingState) (c : Cycle)
    (h : c.interval tc.m_avgtime.start ≥ 1000000)
    (hn : (tc.num_times + 1) % 2 ^ 64 ≠ 0) :
    DecodeImage tc c = some
      ({ m_avgtime := (tc.m_avgtime.End c.avgNow).1.Start c.avgRestart,
         totaltime_gpu := 0, totaltime_cpu := 0, num_times := 0 },
       some
        { gpu_us := (tc.totaltime_gpu + c.gpuDuration) % 2 ^ 64 / ((tc.num_times + 1) % 2 ^ 64)
            / 1000,
          gpu_ms := (tc.totaltime_gpu + c.gpuDuration) % 2 ^ 64 / ((tc.num_times + 1) % 2 ^ 64)
            / 1000 / 1000,
          cpu_us := (tc.totaltime_cpu + c.cpuDuration) % 2 ^ 64 / ((tc.num_times + 1) % 2 ^ 64),
          cpu_ms := (tc.totaltime_cpu + c.cpuDuration) % 2 ^ 64 / ((tc.num_times + 1) % 2 ^ 64)
            / 1000,
          runs := (tc.num_times + 1) % 2 ^ 64,
          interval_ms := c.interval tc.m_avgtime.start / 1000 }) := by
  unfold DecodeImage
  simp only []
  have : (tc.m_avgtime.End c.avgNow).2 ≥ 1000 * 1000 := by
    show c.interval tc.m_avgtime.start ≥ 1000 * 1000
    omega
  rw [if_pos this, if_neg hn]
  rfl

theorem decodeImage_div_zero (tc : TimingState) (c : Cycle)
    (h : c.interval tc.m_avgtime.start ≥ 1000000)
    (hn : (tc.num_times + 1) % 2 ^ 64 = 0) :
    DecodeImage tc c = none := by
  unfold DecodeImage
  simp only []
  have : (tc.m_avgtime.End c.avgNow).2 ≥ 1000 * 1000 := by
    show c.interval tc.m_avgtime.start ≥ 1000 * 1000
    omega
  rw [if_pos this, if_pos hn]

/-- A run of cycles none of which reaches the report interval: the accumulators collect the
durations modulo `2 ^ 64` and the baseline of the interval timer stays. -/
theorem runCycles_quiet (pre : List Cycle) :
    ∀ tc : TimingState, (∀ c, c ∈ pre → c.interval tc.m_avgtime.start < 1000000) →
      tc.totaltime_gpu < 2 ^ 64 → tc.totaltime_cpu < 2 ^ 64 → tc.num_times < 2 ^ 64 →
      ∃ tc', runCycles tc pre = some (tc', List.replicate pre.length none) ∧
        tc'.m_avgtime.start = tc.m_avgtime.start ∧
        tc'.totaltime_gpu = (tc.totaltime_gpu + (pre.map Cycle.gpuDuration).sum) % 2 ^ 64 ∧
        tc'.totaltime_cpu = (tc.totaltime_cpu + (pre.map Cycle.cpuDuration).sum) % 2 ^ 64 ∧
        tc'.num_times = (tc.num_times + pre.length) % 2 ^ 64 := by
  induction pre with
  | nil =>
    intro tc _ hg hc hn
    refine ⟨tc, rfl, rfl, ?_, ?_, ?_⟩
    · simp only [List.map_nil, List.sum_nil]; omega
    · simp only [List.map_nil, List.sum_nil]; omega
    · simp only [List.length_nil]; omega
  | cons c cs ih =>
    intro tc h hg hc hn
    have hq := decodeImage_quiet tc c (h c (List.mem_cons_self _ _))
    obtain ⟨tc', h1, h2, h3, h4, h5⟩ := ih
      { m_avgtime := (tc.m_avgtime.End c.avgNow).1,
        totaltime_gpu := (tc.totaltime_gpu + c.gpuDuration) % 2 ^ 64,
        totaltime_cpu := (tc.totaltime_cpu + c.cpuDuration) % 2 ^ 64,
        num_times := (tc.num_times + 1) % 2 ^ 64 }
      (fun c' hc' => h c' (List.mem_cons_of_mem _ hc'))
      (Nat.mod_lt _ (by norm_num)) (Nat.mod_lt _ (by norm_num)) (Nat.mod_lt _ (by norm_num))
    refine ⟨tc', ?_, h2, ?_, ?_, ?_⟩
    · simp only [runCycles, hq, Option.some_bind, h1, Option.map_some', List.length_cons,
        List.replicate_succ]
    · rw [h3]
      simp only [List.map_cons, List.sum_cons]
      omega
    · rw [h4]
      simp only [List.map_cons, List.sum_cons]
      omega
    · rw [h5]
      simp only [List.length_cons]
      omega

theorem runCycles_append_last (pre : List Cycle) (last : Cycle) :
    ∀ tc tc1 : TimingState, runCycles tc pre = some (tc1, List.replicate pre.length none) →
      runCycles tc (pre ++ [last]) =
        (DecodeImage tc1 last).map fun r =>
          (r.1, List.replicate pre.length none ++ [r.2]) := by
  induction pre with
  | nil =>
    intro tc tc1 h
    simp only [runCycles, Option.some.injEq, Prod.mk.injEq] at h
    obtain ⟨rfl, _⟩ := h
    simp only [List.nil_append, runCycles, List.length_nil, List.replicate_zero]
    cases DecodeImage tc last <;> rfl
  | cons c cs ih =>
    intro tc tc1 h
    simp only [List.cons_append, runCycles] at h ⊢
    cases hd : DecodeImage tc c with
    | none => rw [hd] at h; simp at h
    | some r =>
      rw [hd] at h
      simp only [Option.some_bind] at h ⊢
      cases hr : runCycles r.1 cs with
      | none => rw [hr] at h; simp at h
      | some rest =>
        rw [hr] at h
        simp only [Option.map_some', Option.some.injEq, Prod.mk.injEq, List.length_cons,
          List.replicate_succ, List.cons.injEq] at h
        obtain ⟨h1, h2, h3⟩ := h
        have hrest : rest = (tc1, List.replicate cs.length none) := by
          cases rest; simp only [Prod.mk.injEq]; exact ⟨h1, h3⟩
        rw [hrest] at hr
        rw [List.append_eq, ih r.1 tc1 hr, h2]
        cases DecodeImage tc1 last <;> simp [List.replicate_succ]

theorem reachable_num_times {n : Nat} {tc : TimingState} (h : Reachable n tc) :
    tc.num_times = n := by
  induction h with
  | init t => rfl
  | @quiet n tc tc' c _ hn hstep ih =>
    by_cases hq : c.interval tc.m_avgtime.start < 1000000
    · rw [decodeImage_quiet tc c hq] at hstep
      simp only [Option.some.injEq, Prod.mk.injEq, and_true] at hstep
      subst hstep
      show (tc.num_times + 1) % 2 ^ 64 = n + 1
      omega
    · have hne : (tc.num_times + 1) % 2 ^ 64 ≠ 0 := by omega
      rw [decodeImage_report tc c (by omega) hne] at hstep
      simp at hstep
  | @report n tc tc' c r _ hn hstep ih =>
    by_cases hq : c.interval tc.m_avgtime.start < 1000000
    · rw [decodeImage_quiet tc c hq] at hstep
      simp at hstep
    · have hne : (tc.num_times + 1) % 2 ^ 64 ≠ 0 := by omega
      rw [decodeImage_report tc c (by omega) hne] at hstep
      simp only [Option.some.injEq, Prod.mk.injEq] at hstep
      obtain ⟨rfl, _⟩ := hstep
      rfl

theorem printedLd_of_lt (v : Nat) (h : v < 2 ^ 63) : printedLd v = (v : Int) := by
  unfold printedLd
  have e : v % 2 ^ 64 = v := by omega
  rw [e, if_pos h]

/-! ### Claims about the timing aggregation -/

/-- C7: starting from zero accumulators, after K >= 1 cycles of DecodeImage (K a value of
the 64-bit sample counter, K < 2^64) whose GPU and CPU durations have sums below 2^64, the
report firing on the K-th cycle and on no earlier one, the run completes, the reported
sample count is K, the reported CPU average is floor(sum c / K), the reported GPU average
is floor(floor(sum g / K) / 1000), and the three accumulators are 0 afterwards.  The
conversion `%ld` prints each of these arguments unchanged when it is below 2^63, which the
GPU average always is. -/
theorem timing_report_averages (tc : TimingState) (pre : List Cycle) (last : Cycle)
    (hz : tc.totaltime_gpu = 0 ∧ tc.totaltime_cpu = 0 ∧ tc.num_times = 0)
    (hquiet : ∀ c, c ∈ pre → c.interval tc.m_avgtime.start < 1000000)
    (hfire : last.interval tc.m_avgtime.start ≥ 1000000)
    (hg : ((pre ++ [last]).map Cycle.gpuDuration).sum < 2 ^ 64)
    (hc : ((pre ++ [last]).map Cycle.cpuDuration).sum < 2 ^ 64)
    (hK : (pre ++ [last]).length < 2 ^ 64) :
    ∃ tc' r, runCycles tc (pre ++ [last])
        = some (tc', List.replicate pre.length none ++ [some r]) ∧
      r.runs = (pre ++ [last]).length ∧
      r.cpu_us = ((pre ++ [last]).map Cycle.cpuDuration).sum / (pre ++ [last]).length ∧
      r.gpu_us = ((pre ++ [last]).map Cycle.gpuDuration).sum / (pre ++ [last]).length / 1000 ∧
      tc'.totaltime_gpu = 0 ∧ tc'.totaltime_cpu = 0 ∧ tc'.num_times = 0 ∧
      printedLd r.gpu_us = (r.gpu_us : Int) ∧
      (r.cpu_us < 2 ^ 63 → printedLd r.cpu_us = (r.cpu_us : Int)) ∧
      (r.runs < 2 ^ 63 → printedLd r.runs = (r.runs : Int)) := by
  obtain ⟨hz1, hz2, hz3⟩ := hz
  obtain ⟨tc1, h1, h2, h3, h4, h5⟩ := runCycles_quiet pre tc hquiet (by omega) (by omega)
    (by omega)
  simp only [List.map_append, List.map_cons, List.map_nil, List.sum_append, List.sum_cons,
    List.sum_nil, List.length_append, List.length_cons, List.length_nil] at hg hc hK ⊢
  have hn : (tc1.num_times + 1) % 2 ^ 64 = pre.length + 1 := by rw [h5]; omega
  have hgs : (tc1.totaltime_gpu + last.gpuDuration) % 2 ^ 64
      = (pre.map Cycle.gpuDuration).sum + (last.gpuDuration + 0) := by rw [h3]; omega
  have hcs : (tc1.totaltime_cpu + last.cpuDuration) % 2 ^ 64
      = (pre.map Cycle.cpuDuration).sum + (last.cpuDuration + 0) := by rw [h4]; omega
  have hrep := decodeImage_report tc1 last (by rw [h2]; exact hfire) (by omega)
  rw [hn, hgs, hcs] at hrep
  have hrun := runCycles_append_last pre last tc tc1 h1
  rw [hrep] at hrun
  refine ⟨_, _, hrun, rfl, rfl, rfl, rfl, rfl, rfl, ?_, ?_, ?_⟩
  · apply printedLd_of_lt
    show ((pre.map Cycle.gpuDuration).sum + (last.gpuDuration + 0)) / (pre.length + 1) / 1000
      < 2 ^ 63
    have hle : ((pre.map Cycle.gpuDuration).sum + (last.gpuDuration + 0)) / (pre.length + 1)
        ≤ (pre.map Cycle.gpuDuration).sum + (last.gpuDuration + 0) := Nat.div_le_self _ _
    omega
  · intro h
    exact printedLd_of_lt _ h
  · intro h
    exact printedLd_of_lt _ h

/-- Witness of C7: three cycles with CPU durations 15, 17, 23 us and GPU durations 3000,
5000, 7500 ns, the third reaching the report interval: sample count 3, CPU average
floor(55 / 3) = 18 us, GPU average floor(floor(15500 / 3) / 1000) = 5 us. -/
theorem timing_report_averages_witness :
    ((timingInit.totaltime_gpu = 0 ∧ timingInit.totaltime_cpu = 0 ∧ timingInit.num_times = 0) ∧
      (∀ c, c ∈ sampleQuietCycles → c.interval timingInit.m_avgtime.start < 1000000) ∧
      sampleReportCycle.interval timingInit.m_avgtime.start ≥ 1000000) ∧
    ∃ tc' r, runCycles timingInit (sampleQuietCycles ++ [sampleReportCycle])
        = some (tc', List.replicate sampleQuietCycles.length none ++ [some r]) ∧
      r.runs = 3 ∧ r.cpu_us = 18 ∧ r.gpu_us = 5 ∧
      tc'.totaltime_gpu = 0 ∧ tc'.totaltime_cpu = 0 ∧ tc'.num_times = 0 ∧
      printedLd r.gpu_us = (r.gpu_us : Int) ∧
      (r.cpu_us < 2 ^ 63 → printedLd r.cpu_us = (r.cpu_us : Int)) ∧
      (r.runs < 2 ^ 63 → printedLd r.runs = (r.runs : Int)) :=
  ⟨by decide, timing_report_averages timingInit sampleQuietCycles sampleReportCycle (by decide)
    (by decide) (by decide) (by decide) (by decide) (by decide)⟩

/-- C8: in a state reachable from the constructor's state by completed cycles of
DecodeImage, with fewer than 2^64 cycles in the current interval, a cycle that takes the
report branch finds the divisor num_times at least 1; it completes and reports as sample
count the number of cycles of the interval.  No cycle from such a state divides by zero. -/
theorem report_divisor_positive (n : Nat) (tc : TimingState) (c : Cycle)
    (hreach : Reachable n tc) (hn : n + 1 < 2 ^ 64)
    (hfire : c.interval tc.m_avgtime.start ≥ 1000000) :
    1 ≤ (tc.num_times + 1) % 2 ^ 64 ∧
    (∃ tc' r, DecodeImage tc c = some (tc', some r) ∧ r.runs = n + 1 ∧ 1 ≤ r.runs) ∧
    (∀ c', DecodeImage tc c' ≠ none) := by
  have hnum := reachable_num_times hreach
  have hne : (tc.num_times + 1) % 2 ^ 64 ≠ 0 := by omega
  refine ⟨by omega, ⟨_, _, decodeImage_report tc c hfire hne, ?_, ?_⟩, ?_⟩
  · show (tc.num_times + 1) % 2 ^ 64 = n + 1
    omega
  · show 1 ≤ (tc.num_times + 1) % 2 ^ 64
    omega
  · intro c'
    by_cases hq : c'.interval tc.m_avgtime.start < 1000000
    · rw [decodeImage_quiet tc c' hq]; simp
    · rw [decodeImage_report tc c' (by omega) hne]; simp

/-- Witness of C8: the constructor's state and a cycle reaching the report interval. -/
theorem report_divisor_positive_witness :
    lateCycle.interval timingInit.m_avgtime.start ≥ 1000000 ∧
    1 ≤ (timingInit.num_times + 1) % 2 ^ 64 ∧
    (∃ tc' r, DecodeImage timingInit lateCycle = some (tc', some r) ∧ r.runs = 0 + 1 ∧
      1 ≤ r.runs) ∧
    (∀ c', DecodeImage timingInit c' ≠ none) :=
  ⟨by decide, report_divisor_positive 0 timingInit lateCycle (Reachable.init _) (by decide)
    (by decide)⟩

end TexDecode
